import Mathlib

/-!
# Verification of the CovenantSQL block-producer meta-state and raft configuration

Shallow embedding of `blockproducer/metastate.go` and `raft/configuration.go`.
Go maps become association lists, Go `uint64` becomes `Nat` with explicit
`% 2^64` wherever the source uses raw (wrapping) arithmetic, pointer-typed map
values whose `nil` is used as a deletion marker become `Option`, and a Go
runtime panic (nil dereference / index out of range) is modelled by the
distinguished outcome `Err.goPanic`, which no handler ever catches.
-/

set_option autoImplicit false

namespace CovenantSQL

/-- `2^64`, the modulus of Go's `uint64` arithmetic. -/
def U64 : Nat := 18446744073709551616

/-- Wrapping `uint64` addition (Go `+` on `uint64`). -/
def add64 (a b : Nat) : Nat := (a + b) % U64

/-- Wrapping `uint64` multiplication (Go `*` on `uint64`). -/
def mul64 (a b : Nat) : Nat := (a * b) % U64

/-- Wrapping `uint64` subtraction (Go `-` on `uint64`), for arguments `< 2^64`. -/
def wsub64 (a b : Nat) : Nat := (a + U64 - b % U64) % U64

/-- The error kinds surfaced by the meta-state engine (`blockproducer` errors),
plus `goPanic`, which models a Go runtime panic (nil-pointer dereference or
index out of range): a panic aborts the process, so no embedded function ever
inspects or clears it. -/
inductive Err where
  | accountNotFound
  | accountExists
  | databaseNotFound
  | databaseExists
  | databaseUserExists
  | invalidSender
  | invalidAccountNonce
  | invalidPermission
  | invalidGasPrice
  | insufficientAdvancePayment
  | noSuchMiner
  | minerUserNotMatch
  | gasPriceMismatch
  | accountPermissionDeny
  | wrongTokenType
  | unknownTransactionType
  | overflow
  | underflow
  | genesisFailure
  | goPanic
  deriving DecidableEq, Repr

/-- Modelled from the spec: `token_balance` is "a fixed mapping with exactly two
entries: `Particle` (stable token) and `Wave` (covenant token)" (the `types`
package is not part of the sources under verification). -/
inductive TokenType where
  | particle
  | wave
  deriving DecidableEq, Repr

/-- Account addresses; the underlying hash is opaque, so addresses are modelled
as bare naturals. -/
abbrev Addr := Nat

/-- Database identifiers. `proto.AccountAddress.DatabaseID()` converts an
address to a database key, so the two types share a carrier. -/
abbrev DatabaseID := Nat

/-- `proto.AccountAddress.DatabaseID()` (conversion used as a lookup key). -/
def Addr.databaseID (a : Addr) : DatabaseID := a

/-- A public key is opaque; the only operation ever applied to it is
`crypto.PubKeyHash`, so the model carries the hash value directly. -/
structure PublicKey where
  hashAddr : Addr
  deriving DecidableEq, Repr

/-- `crypto.PubKeyHash` on a possibly-nil `*asymmetric.PublicKey`.
Modelled from the spec: "`hash_public_key(pk) → address`"; hashing a nil
public key dereferences it, i.e. panics. -/
def pubKeyHash : Option PublicKey → Except Err Addr
  | some pk => .ok pk.hashAddr
  | none => .error .goPanic

/-- `safeAdd` on `uint64` balances. Modelled from the spec: "`safe_add(dst, src)`
fails with `Overflow` when `dst + src` exceeds the max; on failure `dst` is
unchanged" (the helper itself is outside the sources under verification). -/
def safeAdd (a b : Nat) : Except Err Nat :=
  if a + b < U64 then .ok (a + b) else .error .overflow

/-- `safeSub` on `uint64` balances. Modelled from the spec: "`safe_sub(dst, src)`
fails with `Underflow` when `src > dst`". -/
def safeSub (a b : Nat) : Except Err Nat :=
  if b ≤ a then .ok (a - b) else .error .underflow

/-! ## Association-list maps (the embedding of Go's keyed maps) -/

/-- A Go map, embedded as an association list. Go map keys are unique; the
theorems that need uniqueness take a `NodupKeys` hypothesis. -/
abbrev AMap (K V : Type) := List (K × V)

/-- Lookup (`m[k]`): first entry with the given key. -/
def findA {K V : Type} [DecidableEq K] : AMap K V → K → Option V
  | [], _ => none
  | (k', v) :: rest, k => if k = k' then some v else findA rest k

/-- Store (`m[k] = v`): replace the first entry with the key, else append. -/
def insertA {K V : Type} [DecidableEq K] : AMap K V → K → V → AMap K V
  | [], k, v => [(k, v)]
  | (k', v') :: rest, k, v =>
    if k = k' then (k, v) :: rest else (k', v') :: insertA rest k v

/-- Delete (`delete(m, k)`): remove the first entry with the key. -/
def eraseA {K V : Type} [DecidableEq K] : AMap K V → K → AMap K V
  | [], _ => []
  | (k', v') :: rest, k => if k = k' then rest else (k', v') :: eraseA rest k

/-- The keys of an association list. -/
def keysA {K V : Type} (m : AMap K V) : List K := m.map Prod.fst

/-- Key uniqueness, the invariant every Go map enjoys. -/
def NodupKeys {K V : Type} (m : AMap K V) : Prop := (keysA m).Nodup

instance {K V : Type} [DecidableEq K] (m : AMap K V) : Decidable (NodupKeys m) := by
  unfold NodupKeys; infer_instance

/-! ## Entities (`types` package data model, per the spec's §3) -/

/-- `types.Account`: address, next nonce, and the two-token balance map.
The nonce is modelled from the spec as an unbounded monotonic counter
("`next_nonce` (monotonic counter starting at 0)"); balances are `uint64`
values kept in range by the safe-arithmetic helpers. -/
structure Account where
  address : Addr
  nextNonce : Nat
  particle : Nat
  wave : Nat
  deriving DecidableEq, Repr

/-- `account.TokenBalance[tokenType]` (read). -/
def Account.bal (a : Account) : TokenType → Nat
  | .particle => a.particle
  | .wave => a.wave

/-- `account.TokenBalance[tokenType] = n` (write). -/
def Account.setBal (a : Account) : TokenType → Nat → Account
  | .particle, n => { a with particle := n }
  | .wave, n => { a with wave := n }

/-- Modelled from the spec: `types.Admin` — the admin `UserPermission` value
(the enum's concrete integers are not in the sources; only equality with
`Admin` and order against `NumberOfUserPermission` are ever used). -/
def permAdmin : Nat := 1

/-- Modelled from the spec: `types.NumberOfUserPermission`. -/
def numberOfUserPermission : Nat := 4

/-- Modelled from the spec: `types.Normal` user status. -/
def statusNormal : Nat := 0

/-- Modelled from the spec: `types.Arrears` user status. -/
def statusArrears : Nat := 1

/-- `types.SQLChainUser`. -/
structure SQLChainUser where
  address : Addr
  permission : Nat
  status : Nat
  deposit : Nat
  advancePayment : Nat
  deriving DecidableEq, Repr

/-- `types.UserArrears` (one entry of a miner's `UserArrears` list). -/
structure UserArrears where
  user : Addr
  arrears : Nat
  deriving DecidableEq, Repr

/-- `types.MinerInfo`. -/
structure MinerInfo where
  address : Addr
  nodeID : Nat
  deposit : Nat
  encryptionKey : Nat
  pendingIncome : Nat
  receivedIncome : Nat
  userArrears : List UserArrears
  deriving DecidableEq, Repr

/-- `types.SQLChainProfile`. -/
structure SQLChainProfile where
  id : DatabaseID
  address : Addr
  period : Nat
  gasPrice : Nat
  tokenType : TokenType
  owner : Addr
  users : List SQLChainUser
  miners : List MinerInfo
  encodedGenesis : List Nat
  deriving DecidableEq, Repr

/-- `types.ProviderProfile`. `LoadAvgPerCPU` is a `float64` payload that is only
ever copied, never computed with, so it is carried as an opaque `Nat`. -/
structure ProviderProfile where
  provider : Addr
  space : Nat
  memory : Nat
  loadAvgPerCPU : Nat
  targetUser : Addr
  deposit : Nat
  gasPrice : Nat
  nodeID : Nat
  deriving DecidableEq, Repr

/-! ## MetaState overlay (`metastate.go`) -/

/-- The `readonly` layer of `metaIndex`. The Go code never stores a nil pointer
into `readonly` (`commit` turns dirty nil markers into deletions), so its
values are plain objects. -/
structure MetaIndex where
  accounts : AMap Addr Account
  databases : AMap DatabaseID SQLChainProfile
  provider : AMap Addr ProviderProfile
  deriving DecidableEq, Repr

/-- The `dirty` layer of `metaIndex`: a value of `none` embeds the nil pointer
that marks a pending deletion. -/
structure MetaIndexD where
  accounts : AMap Addr (Option Account)
  databases : AMap DatabaseID (Option SQLChainProfile)
  provider : AMap Addr (Option ProviderProfile)
  deriving DecidableEq, Repr

/-- `newMetaIndex()` for the dirty layer. -/
def newMetaIndexD : MetaIndexD := ⟨[], [], []⟩

/-- `metaState`: the dirty/readonly pair. -/
structure MetaState where
  dirty : MetaIndexD
  readonly : MetaIndex
  deriving DecidableEq, Repr

/-- `loadAccountObject`: dirty first — a nil marker there reads as absent and
shadows readonly — then readonly. -/
def loadAccountObject (s : MetaState) (k : Addr) : Option Account :=
  match findA s.dirty.accounts k with
  | some o => o
  | none => findA s.readonly.accounts k

/-- `loadSQLChainObject` (the Go deep copy is the identity here: values are
immutable). -/
def loadSQLChainObject (s : MetaState) (k : DatabaseID) : Option SQLChainProfile :=
  match findA s.dirty.databases k with
  | some o => o
  | none => findA s.readonly.databases k

/-- `loadProviderObject`. -/
def loadProviderObject (s : MetaState) (k : Addr) : Option ProviderProfile :=
  match findA s.dirty.provider k with
  | some o => o
  | none => findA s.readonly.provider k

/-- `loadOrStoreAccountObject`: returns `(o, loaded)` plus the updated state.
`v` is stored into dirty only when the key is live in neither layer (a nil
marker in dirty does not count as live and gets overwritten by the store). -/
def loadOrStoreAccountObject (s : MetaState) (k : Addr) (v : Account) :
    Option Account × Bool × MetaState :=
  match findA s.dirty.accounts k with
  | some (some o) => (some o, true, s)
  | _ =>
    match findA s.readonly.accounts k with
    | some o => (some o, true, s)
    | none =>
      (none, false,
       { s with dirty := { s.dirty with accounts := insertA s.dirty.accounts k (some v) } })

/-- `loadOrStoreSQLChainObject`. -/
def loadOrStoreSQLChainObject (s : MetaState) (k : DatabaseID) (v : SQLChainProfile) :
    Option SQLChainProfile × Bool × MetaState :=
  match findA s.dirty.databases k with
  | some (some o) => (some o, true, s)
  | _ =>
    match findA s.readonly.databases k with
    | some o => (some o, true, s)
    | none =>
      (none, false,
       { s with dirty := { s.dirty with databases := insertA s.dirty.databases k (some v) } })

/-- `loadOrStoreProviderObject`. -/
def loadOrStoreProviderObject (s : MetaState) (k : Addr) (v : ProviderProfile) :
    Option ProviderProfile × Bool × MetaState :=
  match findA s.dirty.provider k with
  | some (some o) => (some o, true, s)
  | _ =>
    match findA s.readonly.provider k with
    | some o => (some o, true, s)
    | none =>
      (none, false,
       { s with dirty := { s.dirty with provider := insertA s.dirty.provider k (some v) } })

/-- `deleteAccountObject`: insert a nil marker into dirty. -/
def deleteAccountObject (s : MetaState) (k : Addr) : MetaState :=
  { s with dirty := { s.dirty with accounts := insertA s.dirty.accounts k none } }

/-- `deleteSQLChainObject`: insert a nil marker into dirty. -/
def deleteSQLChainObject (s : MetaState) (k : DatabaseID) : MetaState :=
  { s with dirty := { s.dirty with databases := insertA s.dirty.databases k none } }

/-- `deleteProviderObject`: insert a nil marker into dirty. -/
def deleteProviderObject (s : MetaState) (k : Addr) : MetaState :=
  { s with dirty := { s.dirty with provider := insertA s.dirty.provider k none } }

/-- One map's share of `commit()`: fold every dirty entry into readonly —
non-nil stores, nil deletes. -/
def commitMap {K V : Type} [DecidableEq K] (ro : AMap K V) (d : AMap K (Option V)) : AMap K V :=
  d.foldl (fun acc kv =>
    match kv.2 with
    | some v => insertA acc kv.1 v
    | none => eraseA acc kv.1) ro

/-- `commit()`: fold the three dirty maps into readonly, then reset dirty. -/
def commit (s : MetaState) : MetaState :=
  { dirty := newMetaIndexD
    readonly :=
      { accounts := commitMap s.readonly.accounts s.dirty.accounts
        databases := commitMap s.readonly.databases s.dirty.databases
        provider := commitMap s.readonly.provider s.dirty.provider } }

/-- `clean()`: discard dirty. -/
def clean (s : MetaState) : MetaState :=
  { s with dirty := newMetaIndexD }

/-- The overlay lookup a dirty entry must fold to (used to state C1). -/
def overlayFold {V : Type} (dirtyHit : Option (Option V)) (roHit : Option V) : Option V :=
  match dirtyHit with
  | some (some v) => some v
  | some none => none
  | none => roHit

/-- Write an account object through to the dirty layer (`s.dirty.accounts[k] = a`;
also the net effect of mutating an object already held in dirty). -/
def setDirtyAccount (s : MetaState) (k : Addr) (a : Account) : MetaState :=
  { s with dirty := { s.dirty with accounts := insertA s.dirty.accounts k (some a) } }

/-- `s.dirty.databases[k] = p`. -/
def setDirtyDatabase (s : MetaState) (k : DatabaseID) (p : SQLChainProfile) : MetaState :=
  { s with dirty := { s.dirty with databases := insertA s.dirty.databases k (some p) } }

/-- Raw two-layer account lookup as done inline by the handlers
(`if o, d = s.dirty.accounts[k]; !d { o, ok = s.readonly.accounts[k] ... }`).
Unlike `loadAccountObject` it surfaces a dirty nil marker (as `some (none, true)`)
instead of treating it as absent: the handlers dereference it and panic. -/
def rawLoadAccount (s : MetaState) (k : Addr) : Option (Option Account × Bool) :=
  match findA s.dirty.accounts k with
  | some o => some (o, true)
  | none =>
    match findA s.readonly.accounts k with
    | some a => some (some a, false)
    | none => none

/-- The observable balance of an address in the overlay view (absent reads 0). -/
def balanceOf (s : MetaState) (a : Addr) (tt : TokenType) : Nat :=
  match loadAccountObject s a with
  | some acc => acc.bal tt
  | none => 0

/-- The observable next nonce of an address in the overlay view. -/
def nonceView (s : MetaState) (a : Addr) : Option Nat :=
  (loadAccountObject s a).map Account.nextNonce

/-- `increaseAccountToken`: copy-on-write into dirty, then safe-add. The Go
code stores the deep copy into dirty *before* the arithmetic, so a failing add
still leaves the (unmodified) copy in dirty; a nil marker in dirty is
dereferenced (panic). -/
def increaseAccountToken (s : MetaState) (k : Addr) (amount : Nat) (tt : TokenType) :
    Option Err × MetaState :=
  match findA s.dirty.accounts k with
  | some (some dst) =>
    match safeAdd (dst.bal tt) amount with
    | .ok n => (none, setDirtyAccount s k (dst.setBal tt n))
    | .error e => (some e, s)
  | some none => (some .goPanic, s)
  | none =>
    match findA s.readonly.accounts k with
    | none => (some .accountNotFound, s)
    | some src =>
      match safeAdd (src.bal tt) amount with
      | .ok n => (none, setDirtyAccount s k (src.setBal tt n))
      | .error e => (some e, setDirtyAccount s k src)

/-- `decreaseAccountToken` (same shape as increase, with safe-sub). -/
def decreaseAccountToken (s : MetaState) (k : Addr) (amount : Nat) (tt : TokenType) :
    Option Err × MetaState :=
  match findA s.dirty.accounts k with
  | some (some dst) =>
    match safeSub (dst.bal tt) amount with
    | .ok n => (none, setDirtyAccount s k (dst.setBal tt n))
    | .error e => (some e, s)
  | some none => (some .goPanic, s)
  | none =>
    match findA s.readonly.accounts k with
    | none => (some .accountNotFound, s)
    | some src =>
      match safeSub (src.bal tt) amount with
      | .ok n => (none, setDirtyAccount s k (src.setBal tt n))
      | .error e => (some e, setDirtyAccount s k src)

/-- `increaseAccountStableBalance`. -/
def increaseAccountStableBalance (s : MetaState) (k : Addr) (amount : Nat) :
    Option Err × MetaState :=
  increaseAccountToken s k amount .particle

/-- `decreaseAccountStableBalance`. -/
def decreaseAccountStableBalance (s : MetaState) (k : Addr) (amount : Nat) :
    Option Err × MetaState :=
  decreaseAccountToken s k amount .particle

/-- `increaseAccountCovenantBalance`. -/
def increaseAccountCovenantBalance (s : MetaState) (k : Addr) (amount : Nat) :
    Option Err × MetaState :=
  increaseAccountToken s k amount .wave

/-- `types.Transfer` (header fields plus the signee public key). -/
structure Transfer where
  sender : Addr
  receiver : Addr
  amount : Nat
  tokenType : TokenType
  signee : Option PublicKey
  nonce : Nat
  deriving DecidableEq, Repr

/-- `transferAccountToken`.

Faithful to the source, including its bug: the signee-mismatch branch assigns
`ErrInvalidSender` to the named return `err` but does NOT return, so the error
survives only into the `sender == receiver || amount == 0` early return and is
otherwise overwritten by the later `err = safeSub(...)` / `err = safeAdd(...)`
assignments — a mismatched transfer that reaches the arithmetic goes through
and returns nil. -/
def transferAccountToken (s : MetaState) (t : Transfer) : Option Err × MetaState :=
  match pubKeyHash t.signee with
  | .error e => (some e, s)
  | .ok realSender =>
    let err0 : Option Err := if realSender ≠ t.sender then some .invalidSender else none
    if t.sender = t.receiver ∨ t.amount = 0 then (err0, s)
    else
      let s1 := (loadOrStoreAccountObject s t.receiver ⟨t.receiver, 0, 0, 0⟩).2.2
      match rawLoadAccount s1 t.sender with
      | none => (some .accountNotFound, s1)
      | some (so?, _) =>
        match rawLoadAccount s1 t.receiver with
        | none => (some .accountNotFound, s1)
        | some (ro?, _) =>
          match so?, ro? with
          | some so, some ro =>
            match safeSub (so.bal t.tokenType) t.amount with
            | .error e => (some e, s1)
            | .ok sb =>
              match safeAdd (ro.bal t.tokenType) t.amount with
              | .error e => (some e, s1)
              | .ok rb =>
                let s2 := setDirtyAccount s1 t.sender (so.setBal t.tokenType sb)
                (none, setDirtyAccount s2 t.receiver (ro.setBal t.tokenType rb))
          | _, _ => (some .goPanic, s1)

/-- A concrete two-account state for evaluating the transfer handlers. -/
def stC3 : MetaState :=
  { dirty := newMetaIndexD
    readonly :=
      { accounts := [(2, ⟨2, 0, 10, 0⟩), (3, ⟨3, 0, 0, 0⟩)]
        databases := []
        provider := [] } }

/-- A transfer whose signee hashes to address 1 while the declared sender is
address 2: the sender-authentication mismatch case. -/
def txC3 : Transfer :=
  { sender := 2, receiver := 3, amount := 5, tokenType := .particle
    signee := some ⟨1⟩, nonce := 0 }

/-- The ambient configuration and external collaborators consumed by the
handlers: the `conf.GConf` knobs (`QPS`, `UpdatePeriod`, `MinProviderDeposit`),
the combined outcome of `generateGenesisBlock` + `utils.EncodeMsgPack`
(local key store and wall clock, deterministic per call site; `none` is a
key-store/encoding failure, whose external error kind is embedded as
`Err.genesisFailure`), and the
`uint64(float64(income) * rate)` conversion of `updateBilling`'s arrears
branch, abstracted as an opaque function of `(advancePayment, bill, income)`
because IEEE-754 arithmetic is outside the embedding. -/
structure Env where
  qps : Nat
  updatePeriod : Nat
  minProviderDeposit : Nat
  encodedGenesis : Option (List Nat)
  arrearsIncome : Nat → Nat → Nat → Nat

/-- `minDeposit`: `gasPrice * QPS * UpdatePeriod * minerNumber`, with Go's
wrapping `uint64` multiplication. -/
def minDeposit (env : Env) (gasPrice minerNumber : Nat) : Nat :=
  mul64 (mul64 (mul64 gasPrice env.qps) env.updatePeriod) minerNumber

/-- The outcome of `transferSQLChainTokenBalance`'s user loop.
`depositBranch` leaves the named `err` untouched (so the caller returns the
stale signee-mismatch error, if any); `advanceBranch` has just overwritten
`err` with the nil result of `safeAdd`. -/
inductive SQLTransferOutcome where
  | noUser
  | failTok
  | failAdd (e : Err)
  | depositBranch (users : List SQLChainUser)
  | advanceBranch (users : List SQLChainUser)
  deriving DecidableEq, Repr

/-- The `for _, user := range sqlchain.Users` loop of
`transferSQLChainTokenBalance`: the first user whose address equals the
declared sender is processed and the loop returns. -/
def sqlchainUserLoop (t : Transfer) (chainTT : TokenType) (minDep : Nat) :
    List SQLChainUser → SQLTransferOutcome
  | [] => .noUser
  | u :: rest =>
    if u.address = t.sender then
      if chainTT ≠ t.tokenType then .failTok
      else if u.deposit < minDep then
        let diff := minDep - u.deposit
        let u' := if t.amount ≤ diff
                  then { u with deposit := add64 u.deposit t.amount }
                  else { u with deposit := add64 minDep (t.amount - diff) }
        .depositBranch (u' :: rest)
      else
        match safeAdd u.advancePayment t.amount with
        | .error e => .failAdd e
        | .ok n => .advanceBranch ({ u with advancePayment := n } :: rest)
    else
      match sqlchainUserLoop t chainTT minDep rest with
      | .noUser => .noUser
      | .failTok => .failTok
      | .failAdd e => .failAdd e
      | .depositBranch us => .depositBranch (u :: us)
      | .advanceBranch us => .advanceBranch (u :: us)

/-- `transferSQLChainTokenBalance`.

Faithful to the source twice over: (1) as in `transferAccountToken`, the
signee-mismatch branch assigns `ErrInvalidSender` to the named return without
returning, so the deposit branch and the no-matching-user path (which never
reassign `err`) return the stale error while the advance branch overwrites it;
(2) the mutated profile is a deep copy made by `loadSQLChainObject`, and it is
handed back through `loadOrStoreSQLChainObject`, which stores only when the
key is live in neither layer — the chain was just loaded from one of them, so
the store never happens and the deposit/advance update is discarded. -/
def transferSQLChainTokenBalance (env : Env) (s : MetaState) (t : Transfer) :
    Option Err × MetaState :=
  match pubKeyHash t.signee with
  | .error e => (some e, s)
  | .ok realSender =>
    let err0 : Option Err := if realSender ≠ t.sender then some .invalidSender else none
    match loadSQLChainObject s (Addr.databaseID t.sender) with
    | none => (some .databaseNotFound, s)
    | some sqlchain =>
      let minDep := minDeposit env sqlchain.gasPrice sqlchain.miners.length
      match sqlchainUserLoop t sqlchain.tokenType minDep sqlchain.users with
      | .noUser => (err0, s)
      | .failTok => (some .wrongTokenType, s)
      | .failAdd e => (some e, s)
      | .depositBranch us =>
        (err0, (loadOrStoreSQLChainObject s (Addr.databaseID t.sender)
          { sqlchain with users := us }).2.2)
      | .advanceBranch us =>
        (none, (loadOrStoreSQLChainObject s (Addr.databaseID t.sender)
          { sqlchain with users := us }).2.2)

/-- A concrete environment: `QPS = 1`, `UpdatePeriod = 1`,
`MinProviderDeposit = 10`, genesis generation succeeding with empty bytes. -/
def envC7 : Env :=
  { qps := 1, updatePeriod := 1, minProviderDeposit := 10
    encodedGenesis := some [], arrearsIncome := fun _ _ _ => 0 }

/-- A chain (database ID 5) whose single registered user is address 5 with
zero deposit, one miner, gas price 1, particle token. -/
def stC7 : MetaState :=
  { dirty := newMetaIndexD
    readonly :=
      { accounts := []
        databases :=
          [(5, { id := 5, address := 5, period := 0, gasPrice := 1
                 tokenType := .particle, owner := 5
                 users := [{ address := 5, permission := permAdmin
                             status := statusNormal, deposit := 0, advancePayment := 0 }]
                 miners := [{ address := 4, nodeID := 0, deposit := 0, encryptionKey := 0
                              pendingIncome := 0, receivedIncome := 0, userArrears := [] }]
                 encodedGenesis := [] })]
        provider := [] } }

/-- A correctly-signed sqlchain transfer of 7 particle tokens from user 5 into
chain 5 (`minDep = 1`, deposit 0 < 1, so the deposit branch runs). -/
def txC7 : Transfer :=
  { sender := 5, receiver := 5, amount := 7, tokenType := .particle
    signee := some ⟨5⟩, nonce := 0 }

/-- `types.CreateDatabase` (the fields the handler reads; `ResourceMeta` is
represented by its `TargetMiners` list, the only field the meta-state uses). -/
structure CreateDatabase where
  owner : Addr
  signee : Option PublicKey
  nonce : Nat
  targetMiners : List Addr
  gasPrice : Nat
  advancePayment : Nat
  tokenType : TokenType
  deriving DecidableEq, Repr

/-- `proto.FromAccountAndNonce(owner, uint32(nonce))`. Modelled from the spec:
"`db_id = hash(owner ∥ nonce_as_u32)` (domain-separated)" — an injective
derivation with the `uint32` truncation explicit. -/
def fromAccountAndNonce (owner : Addr) (nonce : Nat) : DatabaseID :=
  Nat.pair owner (nonce % 4294967296)

/-- `DatabaseID.AccountAddress()`. Modelled from the spec: "`db_addr =
account_address_of(db_id)`" — an opaque conversion; database IDs and addresses
share a carrier here, so it is the identity, and it never fails. -/
def DatabaseID.accountAddress (id : DatabaseID) : Except Err Addr := .ok id

/-- `sqlchainPeriod = 60 * 24 * 30`. -/
def sqlchainPeriod : Nat := 60 * 24 * 30

/-- One miner's resolution outcome in `matchProvidersWithUser`'s loop (used to
state which error the first failing miner produces). -/
def minerResolutionError (s : MetaState) (sender : Addr) (gasPrice : Nat) (m : Addr) :
    Option Err :=
  match loadProviderObject s m with
  | none => some .noSuchMiner
  | some po =>
    if po.targetUser ≠ sender then some .minerUserNotMatch
    else if gasPrice < po.gasPrice then some .gasPriceMismatch
    else none

/-- The miner-resolution loop of `matchProvidersWithUser`: load each target
miner's provider profile in order, aborting with the first failure (missing →
`NoSuchMiner`; `target_user ≠ sender` → `MinerUserNotMatch`;
`po.GasPrice > tx.GasPrice` → `GasPriceMismatch`); on success collect the
`MinerInfo` records in `target_miners` order. -/
def resolveMiners (s : MetaState) (sender : Addr) (gasPrice : Nat) :
    List Addr → Except Err (List MinerInfo)
  | [] => .ok []
  | m :: rest =>
    match loadProviderObject s m with
    | none => .error .noSuchMiner
    | some po =>
      if po.targetUser ≠ sender then .error .minerUserNotMatch
      else if gasPrice < po.gasPrice then .error .gasPriceMismatch
      else
        match resolveMiners s sender gasPrice rest with
        | .error e => .error e
        | .ok ms =>
          .ok ({ address := po.provider, nodeID := po.nodeID, deposit := po.deposit
                 encryptionKey := 0, pendingIncome := 0, receivedIncome := 0
                 userArrears := [] } :: ms)

/-- `matchProvidersWithUser` (the CreateDatabase handler): authenticate the
sender, validate gas price and advance payment, resolve the target miners,
derive the new chain identity, debit the owner by
`minAdvancePayment + tx.AdvancePayment` in one safe-sub (in `tx.TokenType`),
generate and encode the genesis block, then install the profile (token type
`Particle`), materialize the chain account, and delete the consumed provider
profiles. -/
def matchProvidersWithUser (env : Env) (s : MetaState) (tx : CreateDatabase) :
    Option Err × MetaState :=
  match pubKeyHash tx.signee with
  | .error e => (some e, s)
  | .ok sender =>
    if sender ≠ tx.owner then (some .invalidSender, s)
    else if tx.gasPrice = 0 then (some .invalidGasPrice, s)
    else
      let minAdvancePayment := minDeposit env tx.gasPrice tx.targetMiners.length
      if tx.advancePayment < minAdvancePayment then (some .insufficientAdvancePayment, s)
      else
        match resolveMiners s sender tx.gasPrice tx.targetMiners with
        | .error e => (some e, s)
        | .ok miners =>
          let dbID := fromAccountAndNonce tx.owner tx.nonce
          match DatabaseID.accountAddress dbID with
          | .error e => (some e, s)
          | .ok dbAddr =>
            match safeAdd minAdvancePayment tx.advancePayment with
            | .error e => (some e, s)
            | .ok all =>
              match decreaseAccountToken s sender all tx.tokenType with
              | (some e, s1) => (some e, s1)
              | (none, s1) =>
                match env.encodedGenesis with
                | none => (some .genesisFailure, s1)
                | some enc =>
                  let sp : SQLChainProfile :=
                    { id := dbID, address := dbAddr, period := sqlchainPeriod
                      gasPrice := tx.gasPrice, tokenType := .particle, owner := sender
                      users := [{ address := sender, permission := permAdmin
                                  status := statusNormal, deposit := minAdvancePayment
                                  advancePayment := tx.advancePayment }]
                      miners := miners, encodedGenesis := enc }
                  match loadSQLChainObject s1 dbID with
                  | some _ => (some .databaseExists, s1)
                  | none =>
                    let s2 := (loadOrStoreAccountObject s1 dbAddr ⟨dbAddr, 0, 0, 0⟩).2.2
                    let s3 := (loadOrStoreSQLChainObject s2 dbID sp).2.2
                    (none, tx.targetMiners.foldl deleteProviderObject s3)

/-- A wrong-nonce transfer from account 2 (nonce 5 against expected 0). -/
def txC2bad : Transfer :=
  { sender := 2, receiver := 3, amount := 5, tokenType := .particle
    signee := some ⟨2⟩, nonce := 5 }

/-- The same transfer with the correct nonce 0. -/
def txC2good : Transfer :=
  { sender := 2, receiver := 3, amount := 5, tokenType := .particle
    signee := some ⟨2⟩, nonce := 0 }

/-- A transfer from the absent account 77. -/
def txC2absent : Transfer :=
  { sender := 77, receiver := 3, amount := 5, tokenType := .particle
    signee := some ⟨77⟩, nonce := 0 }

/-- A correctly-signed transfer (signee hashes to the declared sender) used to
instantiate the conservation theorem. -/
def txC4 : Transfer :=
  { sender := 2, receiver := 3, amount := 4, tokenType := .particle
    signee := some ⟨2⟩, nonce := 0 }

/-- Owner account 2 (balances 100/100) and a provider profile for miner 4
willing to serve user 2 at gas price 1 (used for the CreateDatabase claims). -/
def stC5 : MetaState :=
  { dirty := newMetaIndexD
    readonly :=
      { accounts := [(2, ⟨2, 0, 100, 100⟩)]
        databases := []
        provider := [(4, { provider := 4, space := 0, memory := 0, loadAvgPerCPU := 0
                           targetUser := 2, deposit := 10, gasPrice := 1, nodeID := 0 })] } }

/-- A CreateDatabase naming miners `[4, 6]` where 6 has no provider profile:
the second miner is the first (and only) failing one. -/
def txC5 : CreateDatabase :=
  { owner := 2, signee := some ⟨2⟩, nonce := 0, targetMiners := [4, 6]
    gasPrice := 1, advancePayment := 2, tokenType := .particle }

/-- A CreateDatabase on miner `[4]` alone that succeeds, paying in Wave to
exhibit that the installed chain is nevertheless a Particle chain. -/
def txC6 : CreateDatabase :=
  { owner := 2, signee := some ⟨2⟩, nonce := 0, targetMiners := [4]
    gasPrice := 1, advancePayment := 5, tokenType := .wave }

/-- `types.MinerIncome` (one `{miner, income}` entry of a user's cost report). -/
structure MinerIncome where
  miner : Addr
  income : Nat
  deriving DecidableEq, Repr

/-- `types.UserCost` (`{user, cost, miners[]}`). -/
structure UserCost where
  user : Addr
  cost : Nat
  miners : List MinerIncome
  deriving DecidableEq, Repr

/-- `types.UpdateBilling`. `accountAddress` is `tx.GetAccountAddress()`,
modelled from the spec as the sender address derived from the signee
(the `types` method is not in the sources under verification). -/
structure UpdateBillingTx where
  accountAddress : Addr
  receiver : Addr
  users : List UserCost
  nonce : Nat
  deriving DecidableEq, Repr

/-- `costMap[a]` after the build loop: assignment semantics, so the *last*
entry for a user wins; absent users read 0 (Go map default). -/
def costOf (ucs : List UserCost) (a : Addr) : Nat :=
  ucs.foldl (fun acc uc => if uc.user = a then uc.cost else acc) 0

/-- `userMap[a][m]` after the build loop: `+=` semantics, accumulating over
duplicate user and miner entries with wrapping addition; absent reads 0. -/
def incomeOf (ucs : List UserCost) (a m : Addr) : Nat :=
  ucs.foldl (fun acc uc =>
    if uc.user = a then
      uc.miners.foldl (fun acc2 mi => if mi.miner = m then add64 acc2 mi.income else acc2) acc
    else acc) 0

/-- The settlement step of `updateBilling`'s miner loop:
`miner.ReceivedIncome += miner.PendingIncome; miner.PendingIncome = 0`. -/
def settleMiner (m : MinerInfo) : MinerInfo :=
  { m with receivedIncome := add64 m.receivedIncome m.pendingIncome, pendingIncome := 0 }

/-- One user's billing in `updateBilling`: debit the full bill from the
advance payment when it covers it and credit each miner's pending income; on a
shortfall zero the advance, mark the user `Arrears`, credit each miner the
float-scaled `uint64(float64(income) * rate)` share (abstracted as
`env.arrearsIncome`), and add the unpaid remainder to *every* entry of that
miner's `UserArrears` list (as the source does). -/
def billUser (env : Env) (gasPrice : Nat) (txUsers : List UserCost) (u : SQLChainUser)
    (miners : List MinerInfo) : SQLChainUser × List MinerInfo :=
  let bill := mul64 (costOf txUsers u.address) gasPrice
  if bill ≤ u.advancePayment then
    ({ u with advancePayment := u.advancePayment - bill },
     miners.map fun m =>
       { m with
           pendingIncome :=
             add64 m.pendingIncome (mul64 (incomeOf txUsers u.address m.address) gasPrice) })
  else
    ({ u with advancePayment := 0, status := statusArrears },
     miners.map fun m =>
       let income := mul64 (incomeOf txUsers u.address m.address) gasPrice
       let minerIncome := env.arrearsIncome u.advancePayment bill income % U64
       { m with
           pendingIncome := add64 m.pendingIncome minerIncome,
           userArrears := m.userArrears.map fun ua =>
             { ua with arrears := add64 ua.arrears (wsub64 income minerIncome) } })

/-- The per-user billing loop of `updateBilling`, threading the miner list. -/
def billUsers (env : Env) (gasPrice : Nat) (txUsers : List UserCost) :
    List SQLChainUser → List MinerInfo → List SQLChainUser × List MinerInfo
  | [], ms => ([], ms)
  | u :: rest, ms =>
    let p1 := billUser env gasPrice txUsers u ms
    let p2 := billUsers env gasPrice txUsers rest p1.2
    (p1.1 :: p2.1, p2.2)

/-- `updateBilling`: load the chain (deep copy), return immediately when its
gas price is 0, settle every miner's pending income while checking that the
sender is a current miner (else `InvalidSender`, discarding the copy), then
bill each user and store the updated profile into dirty. -/
def updateBilling (env : Env) (s : MetaState) (t : UpdateBillingTx) : Option Err × MetaState :=
  match loadSQLChainObject s (Addr.databaseID t.receiver) with
  | none => (some .databaseNotFound, s)
  | some newProfile =>
    if newProfile.gasPrice = 0 then (none, s)
    else
      let isMiner := newProfile.miners.any (fun m => m.address = t.accountAddress)
      let settled := newProfile.miners.map settleMiner
      if !isMiner then (some .invalidSender, s)
      else
        let billed := billUsers env newProfile.gasPrice t.users newProfile.users settled
        (none, setDirtyDatabase s (Addr.databaseID t.receiver)
          { newProfile with users := billed.1, miners := billed.2 })

/-- A billable chain: id 7, gas price 2, miner 4 (pending 3, received 10),
user 2 with advance payment 5. -/
def spC8 : SQLChainProfile :=
  { id := 7, address := 7, period := 0, gasPrice := 2, tokenType := .particle, owner := 2
    users := [{ address := 2, permission := permAdmin, status := statusNormal
                deposit := 0, advancePayment := 5 }]
    miners := [{ address := 4, nodeID := 0, deposit := 0, encryptionKey := 0
                 pendingIncome := 3, receivedIncome := 10, userArrears := [] }]
    encodedGenesis := [] }

/-- State holding `spC8`. -/
def stC8 : MetaState :=
  { dirty := newMetaIndexD
    readonly := { accounts := [], databases := [(7, spC8)], provider := [] } }

/-- An UpdateBilling sent by miner 4 reporting cost 10 for user 2. -/
def txC8 : UpdateBillingTx :=
  { accountAddress := 4, receiver := 7
    users := [{ user := 2, cost := 10, miners := [{ miner := 4, income := 10 }] }]
    nonce := 0 }

/-- The same chain with gas price 0. -/
def spC8z : SQLChainProfile := { spC8 with gasPrice := 0 }

/-- State holding the zero-gas-price chain. -/
def stC8z : MetaState :=
  { dirty := newMetaIndexD
    readonly := { accounts := [], databases := [(7, spC8z)], provider := [] } }

/-- An UpdateBilling whose sender (address 99) is not a miner of chain 7. -/
def txC8z : UpdateBillingTx :=
  { accountAddress := 99, receiver := 7
    users := [{ user := 2, cost := 10, miners := [{ miner := 4, income := 10 }] }]
    nonce := 0 }

/-- A concrete meta-state exercising store, update and delete in all three
dirty maps (used to instantiate the commit theorem). -/
def stC1 : MetaState :=
  { dirty :=
      { accounts := [(1, some ⟨1, 0, 50, 0⟩), (2, none)]
        databases := [(7, none)]
        provider := [(9, some ⟨9, 0, 0, 0, 4, 10, 1, 0⟩)] }
    readonly :=
      { accounts := [(2, ⟨2, 3, 8, 8⟩), (3, ⟨3, 1, 5, 5⟩)]
        databases := [(7, ⟨7, 7, 0, 1, .particle, 2, [], [], []⟩)]
        provider := [] } }

/-- `types.BaseAccount` (bootstrap transaction: an address plus the account
payload to merge). -/
structure BaseAccountTx where
  address : Addr
  account : Account
  nonce : Nat
  deriving DecidableEq, Repr

/-- `types.Billing` (legacy reward distribution). `accountAddress` carries
`tx.GetAccountAddress()`, whose `types` implementation is outside the
sources. -/
structure BillingTx where
  receivers : List Addr
  fees : List Nat
  rewards : List Nat
  accountAddress : Addr
  nonce : Nat
  deriving DecidableEq, Repr

/-- `types.ProvideService`. -/
structure ProvideServiceTx where
  signee : Option PublicKey
  space : Nat
  memory : Nat
  loadAvgPerCPU : Nat
  targetUser : Addr
  gasPrice : Nat
  nodeID : Nat
  nonce : Nat
  deriving DecidableEq, Repr

/-- `types.UpdatePermission`. -/
structure UpdatePermissionTx where
  signee : Option PublicKey
  targetSQLChain : Addr
  targetUser : Addr
  permission : Nat
  nonce : Nat
  deriving DecidableEq, Repr

/-- `types.IssueKeys` (`minerKeys` pairs a miner address with an encryption
key; `accountAddress` is `tx.GetAccountAddress()`). -/
structure IssueKeysTx where
  accountAddress : Addr
  targetSQLChain : Addr
  minerKeys : List (Addr × Nat)
  nonce : Nat
  deriving DecidableEq, Repr

/-- `storeBaseAccount`: merge the payload's balances into an existing
zero-nonce account with safe-adds, or install the payload if the address is
absent from both layers. Faithful to the write path of the source: the merge
mutates the object returned by `loadOrStoreAccountObject` in place, so when
that object came from the readonly layer the readonly map itself is updated
(no copy-on-write in this handler). -/
def storeBaseAccount (s : MetaState) (k : Addr) (v : Account) : Option Err × MetaState :=
  match findA s.dirty.accounts k with
  | some (some ao) =>
    if ao.nextNonce ≠ 0 then (some .accountExists, s)
    else
      match safeAdd ao.wave v.wave with
      | .error e => (some e, s)
      | .ok cb =>
        match safeAdd ao.particle v.particle with
        | .error e => (some e, s)
        | .ok sb => (none, setDirtyAccount s k { ao with wave := cb, particle := sb })
  | _ =>
    match findA s.readonly.accounts k with
    | some ao =>
      if ao.nextNonce ≠ 0 then (some .accountExists, s)
      else
        match safeAdd ao.wave v.wave with
        | .error e => (some e, s)
        | .ok cb =>
          match safeAdd ao.particle v.particle with
          | .error e => (some e, s)
          | .ok sb =>
            (none, { s with readonly := { s.readonly with
                accounts := insertA s.readonly.accounts k
                  { ao with wave := cb, particle := sb } } })
    | none =>
      (none, { s with dirty := { s.dirty with
          accounts := insertA s.dirty.accounts k (some v) } })

/-- The receiver loop of `applyBilling`: materialize each receiver, then
credit `Fees[i]` to its Wave balance and `Rewards[i]` to its Particle balance
by safe-add; an out-of-range index is a Go runtime panic. -/
def applyBillingLoop (fees rewards : List Nat) (i : Nat) :
    List Addr → MetaState → Option Err × MetaState
  | [], s => (none, s)
  | r :: rest, s =>
    let s1 := (loadOrStoreAccountObject s r ⟨r, 0, 0, 0⟩).2.2
    match fees[i]? with
    | none => (some .goPanic, s1)
    | some fee =>
      match increaseAccountCovenantBalance s1 r fee with
      | (some e, s2) => (some e, s2)
      | (none, s2) =>
        match rewards[i]? with
        | none => (some .goPanic, s2)
        | some rw =>
          match increaseAccountStableBalance s2 r rw with
          | (some e, s3) => (some e, s3)
          | (none, s3) => applyBillingLoop fees rewards (i + 1) rest s3

/-- `applyBilling`. -/
def applyBilling (s : MetaState) (t : BillingTx) : Option Err × MetaState :=
  applyBillingLoop t.fees t.rewards 0 t.receivers s

/-- `updateProviderList`: derive the sender, debit the configured provider
deposit from its stable balance, then install the provider profile with
load-or-store semantics (an already-registered profile is not overwritten). -/
def updateProviderList (env : Env) (s : MetaState) (t : ProvideServiceTx) :
    Option Err × MetaState :=
  match pubKeyHash t.signee with
  | .error e => (some e, s)
  | .ok sender =>
    match decreaseAccountStableBalance s sender env.minProviderDeposit with
    | (some e, s1) => (some e, s1)
    | (none, s1) =>
      let pp : ProviderProfile :=
        { provider := sender, space := t.space, memory := t.memory
          loadAvgPerCPU := t.loadAvgPerCPU, targetUser := t.targetUser
          deposit := env.minProviderDeposit, gasPrice := t.gasPrice, nodeID := t.nodeID }
      (none, (loadOrStoreProviderObject s1 sender pp).2.2)

/-- `targetUserIndex` of `updatePermission`'s scan: the loop keeps overwriting
the index without breaking, so the *last* match wins. -/
def targetUserIndex (addr : Addr) (users : List SQLChainUser) : Option Nat :=
  users.enum.foldl (fun acc p => if p.2.address = addr then some p.1 else acc) none

/-- Overwrite the permission of the user at index `i`. -/
def setPermissionAt (users : List SQLChainUser) (i : Nat) (perm : Nat) : List SQLChainUser :=
  match users[i]? with
  | some u => users.set i { u with permission := perm }
  | none => users

/-- `updatePermission`: self-update is `InvalidSender`; the chain must exist,
the permission be in range, and the sender be one of the chain's admins; the
target user's permission is updated in place (at the last matching index) or
a fresh Normal user is appended, and the profile is stored back to dirty. -/
def updatePermission (s : MetaState) (t : UpdatePermissionTx) : Option Err × MetaState :=
  match pubKeyHash t.signee with
  | .error e => (some e, s)
  | .ok sender =>
    if sender = t.targetUser then (some .invalidSender, s)
    else
      match loadSQLChainObject s (Addr.databaseID t.targetSQLChain) with
      | none => (some .databaseNotFound, s)
      | some so =>
        if numberOfUserPermission ≤ t.permission then (some .invalidPermission, s)
        else
          let isAdmin := so.users.any fun u => sender = u.address ∧ u.permission = permAdmin
          if !isAdmin then (some .accountPermissionDeny, s)
          else
            let users' :=
              match targetUserIndex t.targetUser so.users with
              | none => so.users ++ [{ address := t.targetUser, permission := t.permission
                                       status := statusNormal, deposit := 0
                                       advancePayment := 0 }]
              | some i => setPermissionAt so.users i t.permission
            (none, setDirtyDatabase s (Addr.databaseID t.targetSQLChain)
              { so with users := users' })

/-- `updateKeys`: admin-authenticated key rotation. Faithful to the source:
the encryption keys are written into the deep copy returned by
`loadSQLChainObject`, and the copy is never stored back, so on the success
path the state is unchanged. -/
def updateKeys (s : MetaState) (t : IssueKeysTx) : Option Err × MetaState :=
  match loadSQLChainObject s (Addr.databaseID t.targetSQLChain) with
  | none => (some .databaseNotFound, s)
  | some so =>
    let isAdmin := so.users.any fun u =>
      t.accountAddress = u.address ∧ u.permission = permAdmin
    if !isAdmin then (some .accountPermissionDeny, s)
    else (none, s)

/-- The transaction taxonomy dispatched by `applyTransaction`; `wrapper` is
`pi.TransactionWrapper` and `unknown` stands for any other concrete type
(the `default` case). -/
inductive Tx where
  | transfer (t : Transfer)
  | billing (t : BillingTx)
  | baseAccount (t : BaseAccountTx)
  | provideService (t : ProvideServiceTx)
  | createDatabase (t : CreateDatabase)
  | updatePermission (t : UpdatePermissionTx)
  | issueKeys (t : IssueKeysTx)
  | updateBilling (t : UpdateBillingTx)
  | wrapper (t : Tx)
  | unknown (accountAddress : Addr) (nonce : Nat)
  deriving DecidableEq, Repr

/-- `tx.GetAccountAddress()`. Modelled from the spec ("`addr =
tx.sender_address()`"): the per-type implementations live in the `types`
package, outside the sources — Transfer reports its `Sender`, BaseAccount its
`Address`, CreateDatabase its `Owner`, signee-carrying types the hash of the
signee (0 when the signee is nil, in which case the handler panics before the
address matters), the rest carry the derived address as a field, and a
wrapper delegates to the wrapped transaction. -/
def Tx.getAccountAddress : Tx → Addr
  | .transfer t => t.sender
  | .billing t => t.accountAddress
  | .baseAccount t => t.address
  | .provideService t =>
    match t.signee with
    | some pk => pk.hashAddr
    | none => 0
  | .createDatabase t => t.owner
  | .updatePermission t =>
    match t.signee with
    | some pk => pk.hashAddr
    | none => 0
  | .issueKeys t => t.accountAddress
  | .updateBilling t => t.accountAddress
  | .wrapper t => t.getAccountAddress
  | .unknown a _ => a

/-- `tx.GetAccountNonce()` (modelled from the spec: every transaction carries
its sender nonce; a wrapper delegates). -/
def Tx.getAccountNonce : Tx → Nat
  | .transfer t => t.nonce
  | .billing t => t.nonce
  | .baseAccount t => t.nonce
  | .provideService t => t.nonce
  | .createDatabase t => t.nonce
  | .updatePermission t => t.nonce
  | .issueKeys t => t.nonce
  | .updateBilling t => t.nonce
  | .wrapper t => t.getAccountNonce
  | .unknown _ n => n

/-- `tx.GetTransactionType() == pi.TransactionTypeBaseAccount` (a wrapper
reports its wrapped transaction's type). -/
def Tx.isBaseAccountType : Tx → Bool
  | .baseAccount _ => true
  | .wrapper t => t.isBaseAccountType
  | _ => false

/-- `nextNonce`: raw dirty-then-readonly account lookup (a nil marker in
dirty is dereferenced: panic), returning the account's next nonce. -/
def nextNonce (s : MetaState) (addr : Addr) : Except Err Nat :=
  match findA s.dirty.accounts addr with
  | some (some o) => .ok o.nextNonce
  | some none => .error .goPanic
  | none =>
    match findA s.readonly.accounts addr with
    | some o => .ok o.nextNonce
    | none => .error .accountNotFound

/-- `increaseNonce`: copy-on-write the account into dirty and bump
`NextNonce` (a nil marker in dirty is dereferenced: panic). -/
def increaseNonce (s : MetaState) (addr : Addr) : Option Err × MetaState :=
  match findA s.dirty.accounts addr with
  | some (some dst) =>
    (none, setDirtyAccount s addr { dst with nextNonce := dst.nextNonce + 1 })
  | some none => (some .goPanic, s)
  | none =>
    match findA s.readonly.accounts addr with
    | none => (some .accountNotFound, s)
    | some src =>
      (none, setDirtyAccount s addr { src with nextNonce := src.nextNonce + 1 })

/-- `applyTransaction`: the type switch. A Transfer tries the sqlchain route
first and falls back to the account route exactly when the former returned
the bare `ErrDatabaseNotFound`. -/
def applyTransaction (env : Env) : Tx → MetaState → Option Err × MetaState
  | .transfer t, s =>
    match transferSQLChainTokenBalance env s t with
    | (some .databaseNotFound, s1) => transferAccountToken s1 t
    | r => r
  | .billing t, s => applyBilling s t
  | .baseAccount t, s => storeBaseAccount s t.address t.account
  | .provideService t, s => updateProviderList env s t
  | .createDatabase t, s => matchProvidersWithUser env s t
  | .updatePermission t, s => updatePermission s t
  | .issueKeys t, s => updateKeys s t
  | .updateBilling t, s => updateBilling env s t
  | .wrapper t, s => applyTransaction env t s
  | .unknown _ _, s => (some .unknownTransactionType, s)

/-- The tail of `apply` after the nonce gate: run the handler, and on success
bump the sender's nonce. -/
def applyThen (env : Env) (s : MetaState) (t : Tx) (addr : Addr) : Option Err × MetaState :=
  match applyTransaction env t s with
  | (some e, s1) => (some e, s1)
  | (none, s1) => increaseNonce s1 addr

/-- `apply`: the nonce gate. A `nextNonce` failure is fatal unless the
transaction is a BaseAccount, for which the expected nonce is taken to be 0
(the Go zero value left in the variable); a nonce mismatch is
`ErrInvalidAccountNonce`; otherwise the handler runs and, on success, the
sender's nonce is bumped. A panic (`goPanic`) is never caught. -/
def apply (env : Env) (s : MetaState) (t : Tx) : Option Err × MetaState :=
  match nextNonce s t.getAccountAddress with
  | .error .goPanic => (some .goPanic, s)
  | .error e =>
    if t.isBaseAccountType then
      if 0 ≠ t.getAccountNonce then (some .invalidAccountNonce, s)
      else applyThen env s t t.getAccountAddress
    else (some e, s)
  | .ok expected =>
    if expected ≠ t.getAccountNonce then (some .invalidAccountNonce, s)
    else applyThen env s t t.getAccountAddress

/-- The nonce-observation preservation property every handler enjoys: any
address whose account is observable keeps its observable next nonce. -/
def NoncePreserved (s s' : MetaState) : Prop :=
  ∀ a n, nonceView s a = some n → nonceView s' a = some n

/-- `HandlerOK r s`: the handler result `r`, produced from state `s`, neither
reports `ErrInvalidAccountNonce` nor disturbs any observable next nonce. -/
def HandlerOK (r : Option Err × MetaState) (s : MetaState) : Prop :=
  r.1 ≠ some Err.invalidAccountNonce ∧ NoncePreserved s r.2

/-- The `for i, v := range dst.Users` loop of `deleteSQLChainUser`, embedded
against the Go range semantics: the range header (length and backing array)
is captured once at loop entry, so the loop always runs `fuel = len(Users)`
iterations over the original backing array even though the slice is shrunk
(`l`) and written through (`set`) along the way. Reading a nil entry's
`.Address` is a runtime panic, modelled as `none`. The swap-remove writes
`arr[i] = arr[last]; arr[last] = nil` through the shared backing array. -/
def delUsersLoop (addr : Addr) : Nat → Nat → List (Option SQLChainUser) → Nat →
    Option (List (Option SQLChainUser) × Nat)
  | 0, _, arr, l => some (arr, l)
  | fuel + 1, i, arr, l =>
    match arr[i]? with
    | none => none
    | some none => none
    | some (some u) =>
      if u.address = addr then
        let last := l - 1
        let arr1 := arr.set i (arr[last]?.getD none)
        let arr2 := arr1.set last none
        delUsersLoop addr fuel (i + 1) arr2 last
      else
        delUsersLoop addr fuel (i + 1) arr l

/-- `deleteSQLChainUser`: copy-on-write the profile into dirty, then run the
swap-remove loop over its user list. The outer `Option` is `none` when the
loop panics (nil-entry dereference); inside it, the usual `(error?, state)`
pair. A nil marker in dirty is dereferenced by the Go code (`dst.Users` on a
nil `dst`), i.e. panics. On normal termination the surviving slice
`arr[0:l]` (which then holds no nil entries) is decoded back. -/
def deleteSQLChainUser (s : MetaState) (k : DatabaseID) (addr : Addr) :
    Option (Option Err × MetaState) :=
  let run : SQLChainProfile → Option (Option Err × MetaState) := fun dst =>
    let arr := dst.users.map some
    match delUsersLoop addr arr.length 0 arr arr.length with
    | none => none
    | some (arr', l') =>
      some (none, setDirtyDatabase s k { dst with users := (arr'.take l').filterMap id })
  match findA s.dirty.databases k with
  | some (some dst) => run dst
  | some none => none
  | none =>
    match findA s.readonly.databases k with
    | none => some (some .databaseNotFound, s)
    | some src => run src

/-- A chain (id 9) with two users, addresses 1 and 2, for evaluating
`deleteSQLChainUser`. -/
def stC10 : MetaState :=
  { dirty := newMetaIndexD
    readonly :=
      { accounts := []
        databases :=
          [(9, { id := 9, address := 9, period := 0, gasPrice := 1, tokenType := .particle
                 owner := 1
                 users := [{ address := 1, permission := permAdmin, status := statusNormal
                             deposit := 0, advancePayment := 0 },
                           { address := 2, permission := 2, status := statusNormal
                             deposit := 0, advancePayment := 0 }]
                 miners := [], encodedGenesis := [] })]
        provider := [] } }

namespace Raft

/-! ## `raft/configuration.go` -/

/-- `ServerSuffrage`. -/
inductive ServerSuffrage where
  | Peer
  | Learner
  | Staging
  deriving DecidableEq, Repr

/-- `ServerID`. -/
abbrev ServerID := String

/-- `ServerAddress`. -/
abbrev ServerAddress := String

/-- `Server` (the public key is opaque and never inspected here). -/
structure Server where
  suffrage : ServerSuffrage
  id : ServerID
  address : ServerAddress
  pubKey : Option Nat
  deriving DecidableEq, Repr

/-- `Configuration`. -/
structure Configuration where
  term : Nat
  leader : Server
  servers : List Server
  signature : Option Nat
  deriving DecidableEq, Repr

/-- `ConfigurationChangeCommand`. -/
inductive ConfigurationChangeCommand where
  | AddStaging
  | AddLearner
  | Demote
  | RemoveServer
  | Promote
  deriving DecidableEq, Repr

/-- `configurationChangeRequest`. -/
structure ConfigurationChangeRequest where
  command : ConfigurationChangeCommand
  serverID : ServerID
  serverAddress : ServerAddress
  prevIndex : Nat
  deriving DecidableEq, Repr

/-- The distinct `fmt.Errorf` failures of `checkConfiguration` /
`nextConfiguration`. -/
inductive ConfigError where
  | emptyID
  | emptyAddress
  | duplicateID
  | duplicateAddress
  | noVoter
  | configurationChanged
  deriving DecidableEq, Repr

/-- The scanning loop of `checkConfiguration` with its `idSet`/`addressSet`
seen-sets and voter counter. -/
def checkServersLoop : List Server → List ServerID → List ServerAddress → Nat →
    Option ConfigError
  | [], _, _, voters => if voters = 0 then some .noVoter else none
  | srv :: rest, ids, addrs, voters =>
    if srv.id = "" then some .emptyID
    else if srv.address = "" then some .emptyAddress
    else if srv.id ∈ ids then some .duplicateID
    else if srv.address ∈ addrs then some .duplicateAddress
    else checkServersLoop rest (srv.id :: ids) (srv.address :: addrs)
      (if srv.suffrage = .Peer then voters + 1 else voters)

/-- `checkConfiguration`: reject empty IDs/addresses, duplicates, and a
configuration with zero voters. -/
def checkConfiguration (c : Configuration) : Option ConfigError :=
  checkServersLoop c.servers [] [] 0

/-- `AddStaging`'s scan (`break` on the first ID match): a matching Peer keeps
its suffrage and gets the new address; any other match is replaced wholesale
by the new (immediately-Peer) server; `none` means no match. -/
def addStagingLoop (newSrv : Server) (id : ServerID) (addr : ServerAddress) :
    List Server → Option (List Server)
  | [] => none
  | srv :: rest =>
    if srv.id = id then
      if srv.suffrage = .Peer then some ({ srv with address := addr } :: rest)
      else some (newSrv :: rest)
    else
      match addStagingLoop newSrv id addr rest with
      | none => none
      | some rest' => some (srv :: rest')

/-- `AddLearner`'s scan: a matching non-Learner keeps its suffrage and gets
the new address; a matching Learner is replaced by the new Learner server. -/
def addLearnerLoop (newSrv : Server) (id : ServerID) (addr : ServerAddress) :
    List Server → Option (List Server)
  | [] => none
  | srv :: rest =>
    if srv.id = id then
      if srv.suffrage ≠ .Learner then some ({ srv with address := addr } :: rest)
      else some (newSrv :: rest)
    else
      match addLearnerLoop newSrv id addr rest with
      | none => none
      | some rest' => some (srv :: rest')

/-- `Demote`: set the first matching server's suffrage to Learner. -/
def demoteLoop (id : ServerID) : List Server → List Server
  | [] => []
  | srv :: rest =>
    if srv.id = id then { srv with suffrage := .Learner } :: rest
    else srv :: demoteLoop id rest

/-- `RemoveServer`: drop the first matching server. -/
def removeLoop (id : ServerID) : List Server → List Server
  | [] => []
  | srv :: rest => if srv.id = id then rest else srv :: removeLoop id rest

/-- `Promote`: the loop breaks only on a server that matches the ID *and* is
Staging; such a server becomes Peer. -/
def promoteLoop (id : ServerID) : List Server → List Server
  | [] => []
  | srv :: rest =>
    if srv.id = id ∧ srv.suffrage = .Staging then { srv with suffrage := .Peer } :: rest
    else srv :: promoteLoop id rest

/-- `nextConfiguration`: refuse a stale `prevIndex`, apply the change command
to a clone of the current configuration, and validate the result with
`checkConfiguration` before returning it. -/
def nextConfiguration (current : Configuration) (currentIndex : Nat)
    (change : ConfigurationChangeRequest) : Except ConfigError Configuration :=
  if change.prevIndex > 0 ∧ change.prevIndex ≠ currentIndex then
    .error .configurationChanged
  else
    let servers' :=
      match change.command with
      | .AddStaging =>
        let newSrv : Server :=
          { suffrage := .Peer, id := change.serverID, address := change.serverAddress
            pubKey := none }
        match addStagingLoop newSrv change.serverID change.serverAddress current.servers with
        | some l => l
        | none => current.servers ++ [newSrv]
      | .AddLearner =>
        let newSrv : Server :=
          { suffrage := .Learner, id := change.serverID, address := change.serverAddress
            pubKey := none }
        match addLearnerLoop newSrv change.serverID change.serverAddress current.servers with
        | some l => l
        | none => current.servers ++ [newSrv]
      | .Demote => demoteLoop change.serverID current.servers
      | .RemoveServer => removeLoop change.serverID current.servers
      | .Promote => promoteLoop change.serverID current.servers
    let c' := { current with servers := servers' }
    match checkConfiguration c' with
    | some e => .error e
    | none => .ok c'

/-- A two-peer configuration for instantiating the membership theorem. -/
def confC9 : Configuration :=
  { term := 1
    leader := { suffrage := .Peer, id := "p1", address := "a1", pubKey := none }
    servers := [{ suffrage := .Peer, id := "p1", address := "a1", pubKey := none },
                { suffrage := .Peer, id := "p2", address := "a2", pubKey := none }]
    signature := none }

/-- `{RemoveServer, p2}` with no `prevIndex` guard. -/
def chgC9 : ConfigurationChangeRequest :=
  { command := .RemoveServer, serverID := "p2", serverAddress := "", prevIndex := 0 }

/-- `{RemoveServer, p1}` guarded on a stale `prevIndex`. -/
def chgC9stale : ConfigurationChangeRequest :=
  { command := .RemoveServer, serverID := "p1", serverAddress := "", prevIndex := 5 }

end Raft

-- DEFS_MARKER

/-! ## Theorems -/

theorem findA_insertA_self {K V : Type} [DecidableEq K] (m : AMap K V) (k : K) (v : V) :
    findA (insertA m k v) k = some v := by
  induction m with
  | nil => simp [insertA, findA]
  | cons e rest ih =>
    by_cases h : k = e.1
    · simp [insertA, h, findA]
    · simp [insertA, h, findA, ih]

theorem findA_insertA_ne {K V : Type} [DecidableEq K] (m : AMap K V) (k k' : K) (v : V)
    (h : k' ≠ k) : findA (insertA m k v) k' = findA m k' := by
  induction m with
  | nil => simp [insertA, findA, h]
  | cons e rest ih =>
    by_cases hk : k = e.1
    · subst hk
      simp [insertA, findA, h]
    · by_cases hk' : k' = e.1
      · simp [insertA, hk, findA, hk']
      · simp [insertA, hk, findA, hk', ih]

theorem findA_eraseA_ne {K V : Type} [DecidableEq K] (m : AMap K V) (k k' : K)
    (h : k' ≠ k) : findA (eraseA m k) k' = findA m k' := by
  induction m with
  | nil => simp [eraseA]
  | cons e rest ih =>
    by_cases hk : k = e.1
    · subst hk
      simp [eraseA, findA, h]
    · by_cases hk' : k' = e.1
      · simp [eraseA, hk, findA, hk']
      · simp [eraseA, hk, findA, hk', ih]

theorem findA_eq_none_of_not_mem_keys {K V : Type} [DecidableEq K] (m : AMap K V) (k : K)
    (h : k ∉ keysA m) : findA m k = none := by
  induction m with
  | nil => rfl
  | cons e rest ih =>
    have h1 : k ≠ e.1 := by
      intro hk; exact h (by simp [keysA, hk])
    have h2 : k ∉ keysA rest := by
      intro hk; exact h (by simp [keysA] at hk ⊢; right; exact hk)
    simp [findA, h1, ih h2]

theorem findA_eraseA_self {K V : Type} [DecidableEq K] (m : AMap K V) (k : K)
    (hm : NodupKeys m) : findA (eraseA m k) k = none := by
  induction m with
  | nil => rfl
  | cons e rest ih =>
    simp only [NodupKeys, keysA, List.map_cons, List.nodup_cons] at hm
    by_cases hk : k = e.1
    · subst hk
      have : e.1 ∉ keysA rest := by
        intro hmem
        exact hm.1 (by simpa [keysA] using hmem)
      simpa [eraseA] using findA_eq_none_of_not_mem_keys rest e.1 this
    · simp [eraseA, hk, findA, ih hm.2]

theorem keysA_insertA {K V : Type} [DecidableEq K] (m : AMap K V) (k : K) (v : V) :
    keysA (insertA m k v) = if k ∈ keysA m then keysA m else keysA m ++ [k] := by
  induction m with
  | nil => simp [insertA, keysA]
  | cons e rest ih =>
    by_cases hk : k = e.1
    · subst hk; simp [insertA, keysA]
    · have h1 : keysA (insertA (e :: rest) k v) = e.1 :: keysA (insertA rest k v) := by
        simp [insertA, hk, keysA]
      have h2 : keysA (e :: rest) = e.1 :: keysA rest := by simp [keysA]
      by_cases hmem : k ∈ keysA rest
      · have hin : k ∈ keysA (e :: rest) := by
          rw [h2]; exact List.mem_cons_of_mem _ hmem
        rw [h1, ih, if_pos hmem, if_pos hin, h2]
      · have hout : k ∉ keysA (e :: rest) := by
          rw [h2]; intro hc
          rcases List.mem_cons.mp hc with h | h
          · exact hk h
          · exact hmem h
        rw [h1, ih, if_neg hmem, if_neg hout, h2]
        simp

theorem nodupKeys_insertA {K V : Type} [DecidableEq K] (m : AMap K V) (k : K) (v : V)
    (hm : NodupKeys m) : NodupKeys (insertA m k v) := by
  unfold NodupKeys at *
  rw [keysA_insertA]
  by_cases hmem : k ∈ keysA m
  · simpa [hmem] using hm
  · simp only [hmem, if_false]
    simp [List.nodup_append, hm, hmem]

theorem keysA_eraseA_sublist {K V : Type} [DecidableEq K] (m : AMap K V) (k : K) :
    List.Sublist (keysA (eraseA m k)) (keysA m) := by
  induction m with
  | nil => simp [eraseA, keysA]
  | cons e rest ih =>
    by_cases hk : k = e.1
    · subst hk
      have h2 : keysA (e :: rest) = e.1 :: keysA rest := by simp [keysA]
      have h3 : eraseA (e :: rest) e.1 = rest := by simp [eraseA]
      rw [h3, h2]
      exact List.sublist_cons_self e.1 (keysA rest)
    · simpa [eraseA, hk, keysA] using List.Sublist.cons₂ e.1 ih

theorem nodupKeys_eraseA {K V : Type} [DecidableEq K] (m : AMap K V) (k : K)
    (hm : NodupKeys m) : NodupKeys (eraseA m k) := by
  exact List.Nodup.sublist (keysA_eraseA_sublist m k) hm

theorem findA_commitMap {K V : Type} [DecidableEq K] (d : AMap K (Option V)) :
    ∀ ro : AMap K V, NodupKeys d → NodupKeys ro → ∀ k,
      findA (commitMap ro d) k = overlayFold (findA d k) (findA ro k) := by
  induction d with
  | nil => intro ro _ _ k; simp [commitMap, findA, overlayFold]
  | cons e rest ih =>
    intro ro hd hro k
    obtain ⟨ek, ev⟩ := e
    obtain ⟨hne, hrest⟩ : ek ∉ keysA rest ∧ NodupKeys rest := by
      have := hd
      simp only [NodupKeys, keysA, List.map_cons, List.nodup_cons] at this
      exact this
    cases ev with
    | some v =>
      have hstep : commitMap ro ((ek, some v) :: rest) = commitMap (insertA ro ek v) rest := rfl
      rw [hstep, ih _ hrest (nodupKeys_insertA _ _ _ hro) k]
      by_cases hk : k = ek
      · subst hk
        have hnone : findA rest k = none := findA_eq_none_of_not_mem_keys rest _ hne
        simp [findA, overlayFold, hnone, findA_insertA_self]
      · have hfind : findA ((ek, some v) :: rest) k = findA rest k := by
          simp [findA, hk]
        rw [hfind]
        cases h3 : findA rest k with
        | some o => cases o <;> simp [overlayFold]
        | none => simp [overlayFold, findA_insertA_ne _ _ _ _ hk]
    | none =>
      have hstep : commitMap ro ((ek, none) :: rest) = commitMap (eraseA ro ek) rest := rfl
      rw [hstep, ih _ hrest (nodupKeys_eraseA _ _ hro) k]
      by_cases hk : k = ek
      · subst hk
        have hnone : findA rest k = none := findA_eq_none_of_not_mem_keys rest _ hne
        simp [findA, overlayFold, hnone, findA_eraseA_self _ _ hro]
      · have hfind : findA ((ek, none) :: rest) k = findA rest k := by
          simp [findA, hk]
        rw [hfind]
        cases h3 : findA rest k with
        | some o => cases o <;> simp [overlayFold]
        | none => simp [overlayFold, findA_eraseA_ne _ _ _ hk]

/-- **C1.** `commit()` empties `dirty` and, for each of the three maps, the new
`readonly` is the fold of the pre-commit dirty over the pre-commit readonly:
every dirty key with a non-nil value replaces the readonly entry, every dirty
key with a nil marker deletes it, and keys absent from dirty are unchanged. -/
theorem commit_folds_dirty_into_readonly (s : MetaState)
    (hda : NodupKeys s.dirty.accounts) (hdd : NodupKeys s.dirty.databases)
    (hdp : NodupKeys s.dirty.provider)
    (hra : NodupKeys s.readonly.accounts) (hrd : NodupKeys s.readonly.databases)
    (hrp : NodupKeys s.readonly.provider) :
    (commit s).dirty = newMetaIndexD ∧
    (∀ k, findA (commit s).readonly.accounts k =
      overlayFold (findA s.dirty.accounts k) (findA s.readonly.accounts k)) ∧
    (∀ k, findA (commit s).readonly.databases k =
      overlayFold (findA s.dirty.databases k) (findA s.readonly.databases k)) ∧
    (∀ k, findA (commit s).readonly.provider k =
      overlayFold (findA s.dirty.provider k) (findA s.readonly.provider k)) :=
  ⟨rfl,
   fun k => findA_commitMap s.dirty.accounts s.readonly.accounts hda hra k,
   fun k => findA_commitMap s.dirty.databases s.readonly.databases hdd hrd k,
   fun k => findA_commitMap s.dirty.provider s.readonly.provider hdp hrp k⟩

/-- Witness for C1: the commit theorem instantiated at a concrete state with a
store, an update and two deletions spread over the three maps. -/
theorem commit_folds_dirty_into_readonly_witness :
    (commit stC1).dirty = newMetaIndexD ∧
    findA (commit stC1).readonly.accounts 1 =
      overlayFold (findA stC1.dirty.accounts 1) (findA stC1.readonly.accounts 1) ∧
    findA (commit stC1).readonly.accounts 2 =
      overlayFold (findA stC1.dirty.accounts 2) (findA stC1.readonly.accounts 2) ∧
    findA (commit stC1).readonly.accounts 3 =
      overlayFold (findA stC1.dirty.accounts 3) (findA stC1.readonly.accounts 3) ∧
    findA (commit stC1).readonly.databases 7 =
      overlayFold (findA stC1.dirty.databases 7) (findA stC1.readonly.databases 7) ∧
    findA (commit stC1).readonly.provider 9 =
      overlayFold (findA stC1.dirty.provider 9) (findA stC1.readonly.provider 9) := by
  have h := commit_folds_dirty_into_readonly stC1 (by decide) (by decide) (by decide)
    (by decide) (by decide) (by decide)
  exact ⟨h.1, h.2.1 1, h.2.1 2, h.2.1 3, h.2.2.1 7, h.2.2.2 9⟩

theorem safeAdd_ok {a b n : Nat} (h : safeAdd a b = .ok n) : n = a + b ∧ a + b < U64 := by
  unfold safeAdd at h
  by_cases hc : a + b < U64
  · simp [hc] at h; exact ⟨h.symm, hc⟩
  · simp [hc] at h

theorem safeSub_ok {a b n : Nat} (h : safeSub a b = .ok n) : n = a - b ∧ b ≤ a := by
  unfold safeSub at h
  by_cases hc : b ≤ a
  · simp [hc] at h; exact ⟨h.symm, hc⟩
  · simp [hc] at h

theorem Account.bal_setBal_self (a : Account) (tt : TokenType) (n : Nat) :
    (a.setBal tt n).bal tt = n := by
  cases tt <;> rfl

theorem Account.bal_setBal_ne (a : Account) (tt tt' : TokenType) (n : Nat) (h : tt' ≠ tt) :
    (a.setBal tt n).bal tt' = a.bal tt' := by
  cases tt <;> cases tt' <;> first | rfl | exact absurd rfl h

theorem Account.nextNonce_setBal (a : Account) (tt : TokenType) (n : Nat) :
    (a.setBal tt n).nextNonce = a.nextNonce := by
  cases tt <;> rfl

theorem loadAccountObject_setDirtyAccount_self (s : MetaState) (k : Addr) (a : Account) :
    loadAccountObject (setDirtyAccount s k a) k = some a := by
  simp [loadAccountObject, setDirtyAccount, findA_insertA_self]

theorem loadAccountObject_setDirtyAccount_ne (s : MetaState) (k k' : Addr) (a : Account)
    (h : k' ≠ k) : loadAccountObject (setDirtyAccount s k a) k' = loadAccountObject s k' := by
  simp [loadAccountObject, setDirtyAccount, findA_insertA_ne _ _ _ _ h]

theorem balanceOf_setDirtyAccount_self (s : MetaState) (k : Addr) (a : Account) (tt : TokenType) :
    balanceOf (setDirtyAccount s k a) k tt = a.bal tt := by
  simp [balanceOf, loadAccountObject_setDirtyAccount_self]

theorem balanceOf_setDirtyAccount_ne (s : MetaState) (k k' : Addr) (a : Account) (tt : TokenType)
    (h : k' ≠ k) : balanceOf (setDirtyAccount s k a) k' tt = balanceOf s k' tt := by
  simp [balanceOf, loadAccountObject_setDirtyAccount_ne s k k' a h]

theorem loadAccountObject_of_rawLoad {s : MetaState} {k : Addr} {o : Account} {d : Bool}
    (h : rawLoadAccount s k = some (some o, d)) : loadAccountObject s k = some o := by
  unfold rawLoadAccount at h
  unfold loadAccountObject
  cases hd : findA s.dirty.accounts k with
  | some v => simp [hd] at h; simp [h.1]
  | none =>
    simp [hd] at h ⊢
    cases hr : findA s.readonly.accounts k with
    | some a => simp [hr] at h ⊢; exact h.1
    | none => simp [hr] at h

theorem rawLoadAccount_loadOrStore_ne (s : MetaState) (k k' : Addr) (v : Account) (h : k' ≠ k) :
    rawLoadAccount (loadOrStoreAccountObject s k v).2.2 k' = rawLoadAccount s k' := by
  unfold loadOrStoreAccountObject
  cases hd : findA s.dirty.accounts k with
  | some o =>
    cases o with
    | some a => simp [hd]
    | none =>
      simp only [hd]
      cases hr : findA s.readonly.accounts k with
      | some a => simp [hr]
      | none => simp [hr, rawLoadAccount, findA_insertA_ne _ _ _ _ h]
  | none =>
    simp only [hd]
    cases hr : findA s.readonly.accounts k with
    | some a => simp [hr]
    | none => simp [hr, rawLoadAccount, findA_insertA_ne _ _ _ _ h]

theorem balanceOf_loadOrStore_zero (s : MetaState) (k : Addr) (v : Account)
    (hv : ∀ tt, v.bal tt = 0) (a : Addr) (tt : TokenType) :
    balanceOf (loadOrStoreAccountObject s k v).2.2 a tt = balanceOf s a tt := by
  by_cases hk : a = k
  · subst hk
    unfold loadOrStoreAccountObject
    cases hd : findA s.dirty.accounts a with
    | some o =>
      cases o with
      | some x => simp [hd]
      | none =>
        simp only [hd]
        cases hr : findA s.readonly.accounts a with
        | some x => simp [hr]
        | none =>
          simp [hr, balanceOf, loadAccountObject, hd, findA_insertA_self, hv]
    | none =>
      simp only [hd]
      cases hr : findA s.readonly.accounts a with
      | some x => simp [hr]
      | none =>
        simp [hr, balanceOf, loadAccountObject, hd, findA_insertA_self, hv]
  · unfold loadOrStoreAccountObject
    cases hd : findA s.dirty.accounts k with
    | some o =>
      cases o with
      | some x => simp [hd]
      | none =>
        simp only [hd]
        cases hr : findA s.readonly.accounts k with
        | some x => simp [hr]
        | none => simp [hr, balanceOf, loadAccountObject, findA_insertA_ne _ _ _ _ hk]
    | none =>
      simp only [hd]
      cases hr : findA s.readonly.accounts k with
      | some x => simp [hr]
      | none => simp [hr, balanceOf, loadAccountObject, findA_insertA_ne _ _ _ _ hk]

theorem sum_balances_two_point {f g : Addr → Nat} {sdr rcv : Addr} (amt : Nat)
    (hne : sdr ≠ rcv)
    (hs : g sdr = f sdr - amt) (hamt : amt ≤ f sdr) (hr : g rcv = f rcv + amt)
    (hother : ∀ a, a ≠ sdr → a ≠ rcv → g a = f a) :
    ∀ L : List Addr, L.Nodup → sdr ∈ L → rcv ∈ L →
      (L.map g).sum = (L.map f).sum := by
  intro L hnd hsm hrm
  have hperm1 : L.Perm (sdr :: L.erase sdr) := List.perm_cons_erase hsm
  have hrm1 : rcv ∈ L.erase sdr := (List.mem_erase_of_ne (Ne.symm hne)).mpr hrm
  have hperm2 : (L.erase sdr).Perm (rcv :: (L.erase sdr).erase rcv) :=
    List.perm_cons_erase hrm1
  have hperm : L.Perm (sdr :: rcv :: (L.erase sdr).erase rcv) :=
    hperm1.trans (List.Perm.cons sdr hperm2)
  have hnd1 : (L.erase sdr).Nodup := hnd.erase sdr
  have hsdr_not : sdr ∉ L.erase sdr := hnd.not_mem_erase
  have hrcv_not : rcv ∉ (L.erase sdr).erase rcv := hnd1.not_mem_erase
  set L2 := (L.erase sdr).erase rcv with hL2
  have hmapeq : L2.map g = L2.map f := by
    apply List.map_congr_left
    intro a ha
    have ha1 : a ∈ L.erase sdr := (L.erase sdr).erase_sublist rcv |>.mem ha
    have hns : a ≠ sdr := fun h => hsdr_not (h ▸ ha1)
    have hnr : a ≠ rcv := fun h => hrcv_not (h ▸ ha)
    exact hother a hns hnr
  have hg := (hperm.map g).sum_eq
  have hf := (hperm.map f).sum_eq
  rw [hg, hf]
  simp only [List.map_cons, List.sum_cons, hmapeq, hs, hr]
  omega

/-- **C3** (evaluation of the code at the failing input): a transfer whose
signee hashes to address 1 but whose declared sender is address 2 is applied
anyway — `transferAccountToken` returns nil and moves the 5 tokens, instead of
failing with `InvalidSender` and leaving balances unchanged. -/
theorem transferAccountToken_mismatched_sender_goes_through :
    (txC3.signee.map PublicKey.hashAddr ≠ some txC3.sender) ∧
    (transferAccountToken stC3 txC3).1 = none ∧
    balanceOf (transferAccountToken stC3 txC3).2 2 .particle = 5 ∧
    balanceOf (transferAccountToken stC3 txC3).2 3 .particle = 5 ∧
    balanceOf stC3 2 .particle = 10 ∧
    balanceOf stC3 3 .particle = 0 := by
  decide

/-- **C4.** Any `transferAccountToken` call that returns nil with
`sender ≠ receiver` conserves the per-token total: the sender's balance in the
transferred token drops by exactly `amount` (which it covers), the receiver's
rises by exactly `amount` (the receiver account being materialized when the
amount is nonzero), every other address and the other token type are
untouched, and the sum of balances over any duplicate-free address set
containing both endpoints is unchanged. -/
theorem transferAccountToken_conserves_balances (s : MetaState) (t : Transfer)
    (hok : (transferAccountToken s t).1 = none) (hsr : t.sender ≠ t.receiver) :
    t.amount ≤ balanceOf s t.sender t.tokenType ∧
    balanceOf (transferAccountToken s t).2 t.sender t.tokenType
      = balanceOf s t.sender t.tokenType - t.amount ∧
    balanceOf (transferAccountToken s t).2 t.receiver t.tokenType
      = balanceOf s t.receiver t.tokenType + t.amount ∧
    (∀ a, a ≠ t.sender → a ≠ t.receiver → ∀ tt,
      balanceOf (transferAccountToken s t).2 a tt = balanceOf s a tt) ∧
    (∀ tt, tt ≠ t.tokenType →
      balanceOf (transferAccountToken s t).2 t.sender tt = balanceOf s t.sender tt ∧
      balanceOf (transferAccountToken s t).2 t.receiver tt = balanceOf s t.receiver tt) ∧
    (t.amount ≠ 0 → (loadAccountObject (transferAccountToken s t).2 t.receiver).isSome) ∧
    (∀ L : List Addr, L.Nodup → t.sender ∈ L → t.receiver ∈ L →
      (L.map (fun a => balanceOf (transferAccountToken s t).2 a t.tokenType)).sum
        = (L.map (fun a => balanceOf s a t.tokenType)).sum) := by
  cases hpk : pubKeyHash t.signee with
  | error e => simp [transferAccountToken, hpk] at hok
  | ok realSender =>
    by_cases hearly : t.sender = t.receiver ∨ t.amount = 0
    · have hz : t.amount = 0 := by
        rcases hearly with h | h
        · exact absurd h hsr
        · exact h
      have hs2 : (transferAccountToken s t).2 = s := by
        simp [transferAccountToken, hpk, hearly]
      rw [hs2, hz]
      refine ⟨Nat.zero_le _, by omega, by omega, fun a _ _ tt => rfl,
        fun tt _ => ⟨rfl, rfl⟩, fun h => absurd rfl h, fun L _ _ _ => rfl⟩
    · -- full transfer path
      simp only [transferAccountToken, hpk, if_neg hearly] at hok ⊢
      set s1 := (loadOrStoreAccountObject s t.receiver ⟨t.receiver, 0, 0, 0⟩).2.2 with hs1
      have hmatz : ∀ a tt, balanceOf s1 a tt = balanceOf s a tt := by
        intro a tt
        exact balanceOf_loadOrStore_zero s t.receiver ⟨t.receiver, 0, 0, 0⟩
          (by intro tt'; cases tt' <;> rfl) a tt
      cases hsl : rawLoadAccount s1 t.sender with
      | none => simp [hsl] at hok
      | some p =>
        obtain ⟨so?, sd⟩ := p
        cases hrl : rawLoadAccount s1 t.receiver with
        | none => simp [hsl, hrl] at hok
        | some q =>
          obtain ⟨ro?, rd⟩ := q
          cases so? with
          | none => simp [hsl, hrl] at hok
          | some so =>
            cases ro? with
            | none => simp [hsl, hrl] at hok
            | some ro =>
              cases hsub : safeSub (so.bal t.tokenType) t.amount with
              | error e => simp [hsl, hrl, hsub] at hok
              | ok sb =>
                cases hadd : safeAdd (ro.bal t.tokenType) t.amount with
                | error e => simp [hsl, hrl, hsub, hadd] at hok
                | ok rb =>
                  obtain ⟨hsb, hsle⟩ := safeSub_ok hsub
                  obtain ⟨hrb, _⟩ := safeAdd_ok hadd
                  simp only [hsl, hrl, hsub, hadd] at hok ⊢
                  have hsbal : balanceOf s t.sender t.tokenType = so.bal t.tokenType := by
                    rw [← hmatz]
                    simp [balanceOf, loadAccountObject_of_rawLoad hsl]
                  have hrbal : balanceOf s t.receiver t.tokenType = ro.bal t.tokenType := by
                    rw [← hmatz]
                    simp [balanceOf, loadAccountObject_of_rawLoad hrl]
                  have hsbal' : ∀ tt, balanceOf s t.sender tt = so.bal tt := by
                    intro tt
                    rw [← hmatz]
                    simp [balanceOf, loadAccountObject_of_rawLoad hsl]
                  have hrbal' : ∀ tt, balanceOf s t.receiver tt = ro.bal tt := by
                    intro tt
                    rw [← hmatz]
                    simp [balanceOf, loadAccountObject_of_rawLoad hrl]
                  have hfs : balanceOf (setDirtyAccount (setDirtyAccount s1 t.sender
                      (so.setBal t.tokenType sb)) t.receiver (ro.setBal t.tokenType rb))
                      t.sender t.tokenType = sb := by
                    rw [balanceOf_setDirtyAccount_ne _ _ _ _ _ hsr,
                      balanceOf_setDirtyAccount_self, Account.bal_setBal_self]
                  have hfr : balanceOf (setDirtyAccount (setDirtyAccount s1 t.sender
                      (so.setBal t.tokenType sb)) t.receiver (ro.setBal t.tokenType rb))
                      t.receiver t.tokenType = rb := by
                    rw [balanceOf_setDirtyAccount_self, Account.bal_setBal_self]
                  have hfother : ∀ a, a ≠ t.sender → a ≠ t.receiver → ∀ tt,
                      balanceOf (setDirtyAccount (setDirtyAccount s1 t.sender
                        (so.setBal t.tokenType sb)) t.receiver (ro.setBal t.tokenType rb))
                        a tt = balanceOf s a tt := by
                    intro a hna hnr tt
                    rw [balanceOf_setDirtyAccount_ne _ _ _ _ _ hnr,
                      balanceOf_setDirtyAccount_ne _ _ _ _ _ hna, hmatz]
                  refine ⟨by rw [hsbal]; exact hsle, ?_, ?_, hfother, ?_, ?_, ?_⟩
                  · rw [hfs, hsb, hsbal]
                  · rw [hfr, hrb, hrbal]
                  · intro tt htt
                    constructor
                    · rw [balanceOf_setDirtyAccount_ne _ _ _ _ _ hsr,
                        balanceOf_setDirtyAccount_self, Account.bal_setBal_ne _ _ _ _ htt,
                        hsbal' tt]
                    · rw [balanceOf_setDirtyAccount_self, Account.bal_setBal_ne _ _ _ _ htt,
                        hrbal' tt]
                  · intro _
                    simp [loadAccountObject_setDirtyAccount_self]
                  · intro L hnd hsm hrm
                    refine sum_balances_two_point t.amount hsr ?_ ?_ ?_ ?_ L hnd hsm hrm
                    · rw [hfs, hsb, hsbal]
                    · rw [hsbal]; exact hsle
                    · rw [hfr, hrb, hrbal]
                    · intro a hna hnr
                      exact hfother a hna hnr t.tokenType

/-- Witness for C4: the conservation theorem instantiated at a concrete
correctly-signed transfer of 4 particle tokens from address 2 to address 3. -/
theorem transferAccountToken_conserves_balances_witness :
    (transferAccountToken stC3 txC4).1 = none ∧ txC4.sender ≠ txC4.receiver ∧
    ((List.map (fun a => balanceOf (transferAccountToken stC3 txC4).2 a txC4.tokenType)
        [2, 3]).sum
      = (List.map (fun a => balanceOf stC3 a txC4.tokenType) [2, 3]).sum) := by
  have h := transferAccountToken_conserves_balances stC3 txC4 (by decide) (by decide)
  exact ⟨by decide, by decide, h.2.2.2.2.2.2 [2, 3] (by decide) (by decide) (by decide)⟩

/-- **C7** (evaluation of the code at the failing input): a correctly-signed
sqlchain transfer of 7 tokens by registered user 5 (deposit 0 below the
minimum deposit 1) returns nil but leaves the state bit-identical — the
deposit update is computed on the deep copy and discarded because
`loadOrStoreSQLChainObject` never overwrites an existing profile, so the
user's deposit stays 0 instead of growing by the transferred amount. -/
theorem transferSQLChainTokenBalance_discards_deposit_update :
    (transferSQLChainTokenBalance envC7 stC7 txC7).1 = none ∧
    (transferSQLChainTokenBalance envC7 stC7 txC7).2 = stC7 ∧
    (loadSQLChainObject (transferSQLChainTokenBalance envC7 stC7 txC7).2
        (Addr.databaseID txC7.sender)).map
      (fun p => p.users.map SQLChainUser.deposit) = some [0] := by
  decide

theorem resolveMiners_first_error (s : MetaState) (sender : Addr) (gp : Nat) :
    ∀ (L : List Addr) (i : Nat) (hi : i < L.length) (e : Err),
      minerResolutionError s sender gp (L.get ⟨i, hi⟩) = some e →
      (∀ j (hj : j < i), minerResolutionError s sender gp (L.get ⟨j, Nat.lt_trans hj hi⟩) = none) →
      resolveMiners s sender gp L = .error e := by
  intro L
  induction L with
  | nil => intro i hi; exact absurd hi (by simp)
  | cons m rest ih =>
    intro i hi e hfail hpre
    cases i with
    | zero =>
      have hm : minerResolutionError s sender gp m = some e := hfail
      unfold minerResolutionError at hm
      unfold resolveMiners
      cases hpo : loadProviderObject s m with
      | none =>
        simp [hpo] at hm ⊢
        exact hm
      | some po =>
        simp only [hpo] at hm ⊢
        by_cases htu : po.targetUser ≠ sender
        · simp [htu] at hm ⊢
          exact hm
        · simp only [htu, if_false] at hm ⊢
          by_cases hgp : gp < po.gasPrice
          · simp [hgp] at hm ⊢
            exact hm
          · simp [hgp] at hm
    | succ i' =>
      have hm : minerResolutionError s sender gp m = none := hpre 0 (Nat.succ_pos i')
      unfold minerResolutionError at hm
      unfold resolveMiners
      cases hpo : loadProviderObject s m with
      | none => simp [hpo] at hm
      | some po =>
        simp only [hpo] at hm
        by_cases htu : po.targetUser ≠ sender
        · simp [htu] at hm
        · simp only [htu, if_false] at hm ⊢
          by_cases hgp : gp < po.gasPrice
          · simp [hgp] at hm
          · simp only [hgp, if_false]
            have hi' : i' < rest.length := Nat.lt_of_succ_lt_succ (by simpa using hi)
            have hrec := ih i' hi' e hfail
              (fun j hj => hpre (j + 1) (Nat.succ_lt_succ hj))
            simp [hrec]

/-- **C5.** If the CreateDatabase sender-authentication, gas-price and
advance-payment checks pass but resolving the target miners fails — the first
failing miner being missing (`NoSuchMiner`), pledged to another user
(`MinerUserNotMatch`) or priced above the transaction (`GasPriceMismatch`) —
then `matchProvidersWithUser` returns exactly that first miner's error with
the state unchanged: every provider profile intact, the owner untouched,
nothing added. -/
theorem matchProvidersWithUser_aborts_before_state_change
    (env : Env) (s : MetaState) (tx : CreateDatabase) (pk : PublicKey) (i : Nat) (e : Err)
    (hsig : tx.signee = some pk) (hown : pk.hashAddr = tx.owner)
    (hgas : tx.gasPrice ≠ 0)
    (hadv : minDeposit env tx.gasPrice tx.targetMiners.length ≤ tx.advancePayment)
    (hi : i < tx.targetMiners.length)
    (hfail : minerResolutionError s tx.owner tx.gasPrice (tx.targetMiners.get ⟨i, hi⟩) = some e)
    (hpre : ∀ j (hj : j < i),
      minerResolutionError s tx.owner tx.gasPrice
        (tx.targetMiners.get ⟨j, Nat.lt_trans hj hi⟩) = none) :
    matchProvidersWithUser env s tx = (some e, s) := by
  have hres := resolveMiners_first_error s tx.owner tx.gasPrice tx.targetMiners i hi e hfail hpre
  simp [matchProvidersWithUser, hsig, pubKeyHash, hown, hgas, Nat.not_lt.mpr hadv, hres]

/-- Witness for C5: miners `[4, 6]` where 4 resolves and 6 has no profile; the
call returns `NoSuchMiner` and the state is exactly the input state. -/
theorem matchProvidersWithUser_aborts_before_state_change_witness :
    matchProvidersWithUser envC7 stC5 txC5 = (some .noSuchMiner, stC5) := by
  exact matchProvidersWithUser_aborts_before_state_change envC7 stC5 txC5 ⟨2⟩ 1 .noSuchMiner
    (by decide) (by decide) (by decide) (by decide) (by decide) (by decide)
    (fun j hj => by
      have hj0 : j = 0 := by omega
      subst hj0
      show minerResolutionError stC5 txC5.owner txC5.gasPrice 4 = none
      decide)

theorem balanceOf_congr_accounts {s s' : MetaState}
    (hd : s'.dirty.accounts = s.dirty.accounts)
    (hr : s'.readonly.accounts = s.readonly.accounts) :
    ∀ a tt, balanceOf s' a tt = balanceOf s a tt := by
  intro a tt
  simp [balanceOf, loadAccountObject, hd, hr]

theorem loadSQLChainObject_congr_databases {s s' : MetaState}
    (hd : s'.dirty.databases = s.dirty.databases)
    (hr : s'.readonly.databases = s.readonly.databases) :
    ∀ k, loadSQLChainObject s' k = loadSQLChainObject s k := by
  intro k
  simp [loadSQLChainObject, hd, hr]

theorem decreaseAccountToken_ok {s s' : MetaState} {k : Addr} {amt : Nat} {tt : TokenType}
    (h : decreaseAccountToken s k amt tt = (none, s')) :
    amt ≤ balanceOf s k tt ∧
    balanceOf s' k tt = balanceOf s k tt - amt ∧
    (∀ a, a ≠ k → ∀ tt', balanceOf s' a tt' = balanceOf s a tt') ∧
    s'.dirty.databases = s.dirty.databases ∧
    s'.dirty.provider = s.dirty.provider ∧
    s'.readonly = s.readonly := by
  unfold decreaseAccountToken at h
  cases hd : findA s.dirty.accounts k with
  | some o =>
    cases o with
    | some dst =>
      simp only [hd] at h
      cases hsub : safeSub (dst.bal tt) amt with
      | error e => simp [hsub] at h
      | ok n =>
        simp only [hsub] at h
        have hs' : s' = setDirtyAccount s k (dst.setBal tt n) := by
          have := congrArg Prod.snd h
          simpa using this.symm
        obtain ⟨hsb, hle⟩ := safeSub_ok hsub
        have hb : balanceOf s k tt = dst.bal tt := by
          simp [balanceOf, loadAccountObject, hd]
        subst hs'
        refine ⟨hb ▸ hle, ?_, ?_, rfl, rfl, rfl⟩
        · rw [balanceOf_setDirtyAccount_self, Account.bal_setBal_self, hb, hsb]
        · intro a hak tt'
          rw [balanceOf_setDirtyAccount_ne _ _ _ _ _ hak]
    | none => simp [hd] at h
  | none =>
    simp only [hd] at h
    cases hr : findA s.readonly.accounts k with
    | none => simp [hr] at h
    | some src =>
      simp only [hr] at h
      cases hsub : safeSub (src.bal tt) amt with
      | error e => simp [hsub] at h
      | ok n =>
        simp only [hsub] at h
        have hs' : s' = setDirtyAccount s k (src.setBal tt n) := by
          have := congrArg Prod.snd h
          simpa using this.symm
        obtain ⟨hsb, hle⟩ := safeSub_ok hsub
        have hb : balanceOf s k tt = src.bal tt := by
          simp [balanceOf, loadAccountObject, hd, hr]
        subst hs'
        refine ⟨hb ▸ hle, ?_, ?_, rfl, rfl, rfl⟩
        · rw [balanceOf_setDirtyAccount_self, Account.bal_setBal_self, hb, hsb]
        · intro a hak tt'
          rw [balanceOf_setDirtyAccount_ne _ _ _ _ _ hak]

theorem loadOrStoreAccountObject_effects (s : MetaState) (k : Addr) (v : Account) :
    (loadOrStoreAccountObject s k v).2.2.dirty.databases = s.dirty.databases ∧
    (loadOrStoreAccountObject s k v).2.2.dirty.provider = s.dirty.provider ∧
    (loadOrStoreAccountObject s k v).2.2.readonly = s.readonly := by
  unfold loadOrStoreAccountObject
  cases hd : findA s.dirty.accounts k with
  | some o =>
    cases o with
    | some a => simp
    | none => cases hr : findA s.readonly.accounts k <;> simp [hr]
  | none => cases hr : findA s.readonly.accounts k <;> simp [hr]

theorem loadOrStoreSQLChainObject_effects (s : MetaState) (k : DatabaseID) (v : SQLChainProfile) :
    (loadOrStoreSQLChainObject s k v).2.2.dirty.accounts = s.dirty.accounts ∧
    (loadOrStoreSQLChainObject s k v).2.2.dirty.provider = s.dirty.provider ∧
    (loadOrStoreSQLChainObject s k v).2.2.readonly = s.readonly := by
  unfold loadOrStoreSQLChainObject
  cases hd : findA s.dirty.databases k with
  | some o =>
    cases o with
    | some a => simp
    | none => cases hr : findA s.readonly.databases k <;> simp [hr]
  | none => cases hr : findA s.readonly.databases k <;> simp [hr]

theorem foldl_deleteProvider_effects (L : List Addr) :
    ∀ s : MetaState,
      (L.foldl deleteProviderObject s).dirty.accounts = s.dirty.accounts ∧
      (L.foldl deleteProviderObject s).dirty.databases = s.dirty.databases ∧
      (L.foldl deleteProviderObject s).readonly = s.readonly := by
  induction L with
  | nil => intro s; exact ⟨rfl, rfl, rfl⟩
  | cons a rest ih =>
    intro s
    have h := ih (deleteProviderObject s a)
    exact ⟨h.1, h.2.1, h.2.2⟩

theorem foldl_deleteProvider_marker (L : List Addr) :
    ∀ (s : MetaState) (m : Addr),
      findA s.dirty.provider m = some none →
      findA (L.foldl deleteProviderObject s).dirty.provider m = some none := by
  induction L with
  | nil => intro s m h; exact h
  | cons a rest ih =>
    intro s m h
    apply ih
    by_cases hak : m = a
    · subst hak
      simp [deleteProviderObject, findA_insertA_self]
    · simp [deleteProviderObject, findA_insertA_ne _ _ _ _ hak, h]

theorem foldl_deleteProvider_deletes (L : List Addr) :
    ∀ (s : MetaState) (m : Addr), m ∈ L →
      loadProviderObject (L.foldl deleteProviderObject s) m = none := by
  induction L with
  | nil => intro s m hm; exact absurd hm (by simp)
  | cons a rest ih =>
    intro s m hm
    rcases List.mem_cons.mp hm with h | h
    · subst h
      have hmarker : findA (rest.foldl deleteProviderObject
          (deleteProviderObject s m)).dirty.provider m = some none := by
        apply foldl_deleteProvider_marker
        simp [deleteProviderObject, findA_insertA_self]
      simp [loadProviderObject, hmarker]
    · exact ih (deleteProviderObject s a) m h

/-- **C6.** Every `matchProvidersWithUser` call that returns nil (with the new
database ID not delete-marked in dirty) installs a chain profile whose token
type is `Particle` regardless of `tx.TokenType`, whose user list is exactly
the one admin entry `{owner, Admin, Normal, deposit = min_advance,
advance_payment = tx.AdvancePayment}`; the owner's balance in `tx.TokenType`
is debited by the single amount `min_advance + tx.AdvancePayment` (which fits
in a `uint64` and was covered by the balance), and every consumed provider
profile is deleted. -/
theorem matchProvidersWithUser_success_shape (env : Env) (s : MetaState) (tx : CreateDatabase)
    (hok : (matchProvidersWithUser env s tx).1 = none)
    (hnodel : findA s.dirty.databases (fromAccountAndNonce tx.owner tx.nonce) ≠ some none) :
    (∃ sp, loadSQLChainObject (matchProvidersWithUser env s tx).2
        (fromAccountAndNonce tx.owner tx.nonce) = some sp ∧
      sp.tokenType = .particle ∧
      sp.users = [{ address := tx.owner, permission := permAdmin, status := statusNormal
                    deposit := minDeposit env tx.gasPrice tx.targetMiners.length
                    advancePayment := tx.advancePayment }] ∧
      sp.owner = tx.owner ∧ sp.gasPrice = tx.gasPrice) ∧
    minDeposit env tx.gasPrice tx.targetMiners.length + tx.advancePayment < U64 ∧
    minDeposit env tx.gasPrice tx.targetMiners.length + tx.advancePayment
      ≤ balanceOf s tx.owner tx.tokenType ∧
    balanceOf (matchProvidersWithUser env s tx).2 tx.owner tx.tokenType
      = balanceOf s tx.owner tx.tokenType
        - (minDeposit env tx.gasPrice tx.targetMiners.length + tx.advancePayment) ∧
    (∀ m ∈ tx.targetMiners, loadProviderObject (matchProvidersWithUser env s tx).2 m = none) := by
  cases hpk : pubKeyHash tx.signee with
  | error e => simp [matchProvidersWithUser, hpk] at hok
  | ok sender =>
    by_cases hsend : sender ≠ tx.owner
    · simp [matchProvidersWithUser, hpk, hsend] at hok
    · push_neg at hsend
      subst hsend
      by_cases hgas : tx.gasPrice = 0
      · simp [matchProvidersWithUser, hpk, hgas] at hok
      · by_cases hadv : tx.advancePayment < minDeposit env tx.gasPrice tx.targetMiners.length
        · simp [matchProvidersWithUser, hpk, hgas, hadv] at hok
        · simp only [matchProvidersWithUser, hpk, ne_eq, not_true_eq_false, if_false,
            hgas, if_neg hadv] at hok ⊢
          cases hres : resolveMiners s tx.owner tx.gasPrice tx.targetMiners with
          | error e => simp [hres] at hok
          | ok miners =>
            simp only [hres, DatabaseID.accountAddress] at hok ⊢
            cases hall : safeAdd (minDeposit env tx.gasPrice tx.targetMiners.length)
                tx.advancePayment with
            | error e => simp [hall] at hok
            | ok all =>
              simp only [hall] at hok ⊢
              cases hdec : decreaseAccountToken s tx.owner all tx.tokenType with
              | mk fst s1 =>
                cases fst with
                | some e => simp [hdec] at hok
                | none =>
                  simp only [hdec] at hok ⊢
                  cases hgen : env.encodedGenesis with
                  | none => simp [hgen] at hok
                  | some enc =>
                    simp only [hgen] at hok ⊢
                    cases hload : loadSQLChainObject s1
                        (fromAccountAndNonce tx.owner tx.nonce) with
                    | some o => simp [hload] at hok
                    | none =>
                      simp only [hload] at hok ⊢
                      obtain ⟨hamt, hbal1, hother1, hdb1, hpr1, hro1⟩ :=
                        decreaseAccountToken_ok hdec
                      obtain ⟨hall_eq, hall_lt⟩ := safeAdd_ok hall
                      -- names for the installed profile and intermediate states
                      set sp : SQLChainProfile :=
                        { id := fromAccountAndNonce tx.owner tx.nonce
                          address := fromAccountAndNonce tx.owner tx.nonce
                          period := sqlchainPeriod
                          gasPrice := tx.gasPrice, tokenType := .particle, owner := tx.owner
                          users := [{ address := tx.owner, permission := permAdmin
                                      status := statusNormal
                                      deposit := minDeposit env tx.gasPrice tx.targetMiners.length
                                      advancePayment := tx.advancePayment }]
                          miners := miners, encodedGenesis := enc } with hsp
                      set s2 := (loadOrStoreAccountObject s1
                        (fromAccountAndNonce tx.owner tx.nonce)
                        ⟨fromAccountAndNonce tx.owner tx.nonce, 0, 0, 0⟩).2.2 with hs2
                      set s3 := (loadOrStoreSQLChainObject s2
                        (fromAccountAndNonce tx.owner tx.nonce) sp).2.2 with hs3
                      obtain ⟨he2db, he2pr, he2ro⟩ := loadOrStoreAccountObject_effects s1
                        (fromAccountAndNonce tx.owner tx.nonce)
                        ⟨fromAccountAndNonce tx.owner tx.nonce, 0, 0, 0⟩
                      -- s1 has no live dirty or readonly entry at the new id,
                      -- so the profile store goes through
                      have hd1 : findA s1.dirty.databases (fromAccountAndNonce tx.owner tx.nonce)
                          = none := by
                        unfold loadSQLChainObject at hload
                        cases hfd : findA s1.dirty.databases
                            (fromAccountAndNonce tx.owner tx.nonce) with
                        | none => rfl
                        | some o =>
                          cases o with
                          | some p => simp [hfd] at hload
                          | none =>
                            rw [hdb1] at hfd
                            exact absurd hfd hnodel
                      have hr1 : findA s1.readonly.databases (fromAccountAndNonce tx.owner tx.nonce)
                          = none := by
                        unfold loadSQLChainObject at hload
                        rw [hd1] at hload
                        exact hload
                      have hd2 : findA s2.dirty.databases (fromAccountAndNonce tx.owner tx.nonce)
                          = none := by
                        rw [he2db]; exact hd1
                      have hr2 : findA s2.readonly.databases (fromAccountAndNonce tx.owner tx.nonce)
                          = none := by
                        rw [he2ro]; exact hr1
                      have hstore :
                          s3.dirty.databases = insertA s2.dirty.databases
                            (fromAccountAndNonce tx.owner tx.nonce) (some sp) ∧
                          s3.dirty.accounts = s2.dirty.accounts ∧
                          s3.readonly = s2.readonly := by
                        rw [hs3]
                        unfold loadOrStoreSQLChainObject
                        simp [hd2, hr2]
                      obtain ⟨hf_acc, hf_db, hf_ro⟩ :=
                        foldl_deleteProvider_effects tx.targetMiners s3
                      refine ⟨⟨sp, ?_, rfl, rfl, rfl, rfl⟩, ?_, ?_, ?_, ?_⟩
                      · -- the profile is found in the final state
                        rw [loadSQLChainObject_congr_databases hf_db
                          (by rw [hf_ro])]
                        have hfind : findA s3.dirty.databases
                            (fromAccountAndNonce tx.owner tx.nonce) = some (some sp) := by
                          rw [hstore.1]
                          exact findA_insertA_self _ _ _
                        simp [loadSQLChainObject, hfind]
                      · exact hall_lt
                      · exact hall_eq ▸ hamt
                      · have hb3 : ∀ a tt, balanceOf s3 a tt = balanceOf s1 a tt := by
                          intro a tt
                          have h32 : balanceOf s3 a tt = balanceOf s2 a tt :=
                            balanceOf_congr_accounts hstore.2.1 (by rw [hstore.2.2]) a tt
                          rw [h32, hs2]
                          exact balanceOf_loadOrStore_zero s1 _ _
                            (by intro tt'; cases tt' <;> rfl) a tt
                        have hb4 : ∀ a tt,
                            balanceOf (tx.targetMiners.foldl deleteProviderObject s3) a tt
                              = balanceOf s3 a tt :=
                          balanceOf_congr_accounts hf_acc (by rw [hf_ro])
                        rw [hb4, hb3, hbal1, hall_eq]
                      · intro m hm
                        exact foldl_deleteProvider_deletes tx.targetMiners s3 m hm

/-- Witness for C6: a successful CreateDatabase paying in Wave on miner `[4]`;
the installed chain is a Particle chain, the owner's Wave balance drops by
`1 + 5`, and miner 4's provider profile is gone. -/
theorem matchProvidersWithUser_success_shape_witness :
    (matchProvidersWithUser envC7 stC5 txC6).1 = none ∧
    (∃ sp, loadSQLChainObject (matchProvidersWithUser envC7 stC5 txC6).2
        (fromAccountAndNonce txC6.owner txC6.nonce) = some sp ∧
      sp.tokenType = .particle ∧
      sp.users = [{ address := txC6.owner, permission := permAdmin, status := statusNormal
                    deposit := minDeposit envC7 txC6.gasPrice txC6.targetMiners.length
                    advancePayment := txC6.advancePayment }] ∧
      sp.owner = txC6.owner ∧ sp.gasPrice = txC6.gasPrice) ∧
    balanceOf (matchProvidersWithUser envC7 stC5 txC6).2 txC6.owner txC6.tokenType
      = balanceOf stC5 txC6.owner txC6.tokenType
        - (minDeposit envC7 txC6.gasPrice txC6.targetMiners.length + txC6.advancePayment) ∧
    (∀ m ∈ txC6.targetMiners,
      loadProviderObject (matchProvidersWithUser envC7 stC5 txC6).2 m = none) := by
  have h := matchProvidersWithUser_success_shape envC7 stC5 txC6 (by decide) (by decide)
  exact ⟨by decide, h.1, h.2.2.2.1, h.2.2.2.2⟩

theorem billUser_received (env : Env) (gp : Nat) (txUsers : List UserCost)
    (u : SQLChainUser) (ms : List MinerInfo) :
    (billUser env gp txUsers u ms).2.map MinerInfo.receivedIncome
      = ms.map MinerInfo.receivedIncome := by
  unfold billUser
  by_cases h : mul64 (costOf txUsers u.address) gp ≤ u.advancePayment
  · simp only [h, if_true, List.map_map]
    exact List.map_congr_left (fun m _ => rfl)
  · simp only [h, if_false, List.map_map]
    exact List.map_congr_left (fun m _ => rfl)

theorem billUsers_received (env : Env) (gp : Nat) (txUsers : List UserCost) :
    ∀ (us : List SQLChainUser) (ms : List MinerInfo),
      (billUsers env gp txUsers us ms).2.map MinerInfo.receivedIncome
        = ms.map MinerInfo.receivedIncome := by
  intro us
  induction us with
  | nil => intro ms; rfl
  | cons u rest ih =>
    intro ms
    show (billUsers env gp txUsers rest (billUser env gp txUsers u ms).2).2.map
        MinerInfo.receivedIncome = ms.map MinerInfo.receivedIncome
    rw [ih, billUser_received]

/-- **C8** (counterexample to the claim as stated): chain 7 exists with gas
price 0; the sender (address 99) is not one of its miners, yet `updateBilling`
returns nil with the state unchanged instead of failing with `InvalidSender` —
the `GasPrice == 0` early return precedes the miner-membership check. -/
theorem updateBilling_zero_gas_skips_sender_check :
    loadSQLChainObject stC8z (Addr.databaseID txC8z.receiver) = some spC8z ∧
    spC8z.miners.all (fun m => m.address ≠ txC8z.accountAddress) = true ∧
    updateBilling envC7 stC8z txC8z = (none, stC8z) := by
  decide

/-- **C8** (amended). For an existing chain: when its gas price is 0,
`updateBilling` returns nil immediately with the state unchanged (no sender
check, no settlement, nothing billed); when the gas price is nonzero and the
sender is not a current miner it fails with `InvalidSender` and the state is
unchanged; and when the gas price is nonzero and the sender is a miner, the
stored profile settles every miner first — each miner's received income grows
by its old pending income (wrapping `uint64` add) — and per-user billing then
runs on the settled miners, whose pending incomes were all reset to 0. -/
theorem updateBilling_spec (env : Env) (s : MetaState) (t : UpdateBillingTx)
    (p : SQLChainProfile)
    (hload : loadSQLChainObject s (Addr.databaseID t.receiver) = some p) :
    (p.gasPrice = 0 → updateBilling env s t = (none, s)) ∧
    (p.gasPrice ≠ 0 → (∀ m ∈ p.miners, m.address ≠ t.accountAddress) →
      updateBilling env s t = (some .invalidSender, s)) ∧
    (p.gasPrice ≠ 0 → (∃ m ∈ p.miners, m.address = t.accountAddress) →
      ∃ p', updateBilling env s t
          = (none, setDirtyDatabase s (Addr.databaseID t.receiver) p') ∧
        p'.miners.map MinerInfo.receivedIncome
          = p.miners.map (fun m => add64 m.receivedIncome m.pendingIncome) ∧
        (∀ m, (settleMiner m).pendingIncome = 0) ∧
        p'.miners = (billUsers env p.gasPrice t.users p.users (p.miners.map settleMiner)).2 ∧
        p'.users = (billUsers env p.gasPrice t.users p.users (p.miners.map settleMiner)).1) := by
  refine ⟨?_, ?_, ?_⟩
  · intro hz
    simp [updateBilling, hload, hz]
  · intro hnz hnm
    have hany : p.miners.any (fun m => m.address = t.accountAddress) = false := by
      rw [List.any_eq_false]
      intro m hm
      simpa using hnm m hm
    simp [updateBilling, hload, hnz, hany]
  · intro hnz hm
    have hany : p.miners.any (fun m => m.address = t.accountAddress) = true := by
      rw [List.any_eq_true]
      obtain ⟨m, hmem, hmeq⟩ := hm
      exact ⟨m, hmem, by simpa using hmeq⟩
    refine ⟨{ p with
        users := (billUsers env p.gasPrice t.users p.users (p.miners.map settleMiner)).1
        miners := (billUsers env p.gasPrice t.users p.users (p.miners.map settleMiner)).2 },
      ?_, ?_, ?_, rfl, rfl⟩
    · simp [updateBilling, hload, hnz, hany]
    · rw [billUsers_received, List.map_map]
      exact List.map_congr_left (fun m _ => rfl)
    · intro m; rfl

/-- Witness for the amended C8: miner 4 (pending 3, received 10) bills user 2
on chain 7 at gas price 2; the stored profile's received income is
`10 + 3 = 13`. -/
theorem updateBilling_spec_witness :
    spC8.gasPrice ≠ 0 ∧
    (∃ m ∈ spC8.miners, m.address = txC8.accountAddress) ∧
    (∃ p', updateBilling envC7 stC8 txC8
        = (none, setDirtyDatabase stC8 (Addr.databaseID txC8.receiver) p') ∧
      p'.miners.map MinerInfo.receivedIncome
        = spC8.miners.map (fun m => add64 m.receivedIncome m.pendingIncome) ∧
      (∀ m, (settleMiner m).pendingIncome = 0) ∧
      p'.miners = (billUsers envC7 spC8.gasPrice txC8.users spC8.users
        (spC8.miners.map settleMiner)).2 ∧
      p'.users = (billUsers envC7 spC8.gasPrice txC8.users spC8.users
        (spC8.miners.map settleMiner)).1) := by
  have h := updateBilling_spec envC7 stC8 txC8 spC8 (by decide)
  exact ⟨by decide, ⟨spC8.miners.head (by decide), by decide, by decide⟩,
    h.2.2 (by decide) ⟨spC8.miners.head (by decide), by decide, by decide⟩⟩

namespace Raft

theorem checkServersLoop_ok :
    ∀ (L : List Server) (ids : List ServerID) (addrs : List ServerAddress) (voters : Nat),
      checkServersLoop L ids addrs voters = none →
      (∀ srv ∈ L, srv.id ≠ "" ∧ srv.address ≠ "" ∧ srv.id ∉ ids ∧ srv.address ∉ addrs) ∧
      (L.map Server.id).Nodup ∧ (L.map Server.address).Nodup ∧
      (voters = 0 → ∃ srv ∈ L, srv.suffrage = .Peer) := by
  intro L
  induction L with
  | nil =>
    intro ids addrs voters h
    refine ⟨by simp, by simp, by simp, fun hv => ?_⟩
    unfold checkServersLoop at h
    simp [hv] at h
  | cons srv rest ih =>
    intro ids addrs voters h
    unfold checkServersLoop at h
    by_cases h1 : srv.id = ""
    · simp [h1] at h
    · by_cases h2 : srv.address = ""
      · simp [h1, h2] at h
      · by_cases h3 : srv.id ∈ ids
        · simp [h1, h2, h3] at h
        · by_cases h4 : srv.address ∈ addrs
          · simp [h1, h2, h3, h4] at h
          · simp only [h1, h2, h3, h4, if_false] at h
            obtain ⟨hall, hidnd, haddrnd, hpeer⟩ := ih _ _ _ h
            refine ⟨?_, ?_, ?_, ?_⟩
            · intro x hx
              rcases List.mem_cons.mp hx with hx | hx
              · subst hx; exact ⟨h1, h2, h3, h4⟩
              · obtain ⟨e1, e2, e3, e4⟩ := hall x hx
                refine ⟨e1, e2, fun hc => e3 (List.mem_cons_of_mem _ hc),
                  fun hc => e4 (List.mem_cons_of_mem _ hc)⟩
            · rw [List.map_cons, List.nodup_cons]
              refine ⟨?_, hidnd⟩
              intro hc
              rcases List.mem_map.mp hc with ⟨x, hx, hxe⟩
              exact (hall x hx).2.2.1 (hxe ▸ List.mem_cons_self _ _)
            · rw [List.map_cons, List.nodup_cons]
              refine ⟨?_, haddrnd⟩
              intro hc
              rcases List.mem_map.mp hc with ⟨x, hx, hxe⟩
              exact (hall x hx).2.2.2 (hxe ▸ List.mem_cons_self _ _)
            · intro hv
              by_cases hs : srv.suffrage = .Peer
              · exact ⟨srv, List.mem_cons_self _ _, hs⟩
              · have : voters = 0 := hv
                obtain ⟨x, hx, hxs⟩ := hpeer (by simp [hs] at h ⊢; omega)
                exact ⟨x, List.mem_cons_of_mem _ hx, hxs⟩

/-- **C9.** `nextConfiguration` fails when the change carries a nonzero
`prevIndex` different from the current index; and whenever it returns a
configuration, that configuration passes `checkConfiguration`: no empty server
IDs or addresses, no duplicate IDs or addresses, and at least one Peer
voter. -/
theorem nextConfiguration_guards (current : Configuration) (currentIndex : Nat)
    (change : ConfigurationChangeRequest) :
    (change.prevIndex ≠ 0 → change.prevIndex ≠ currentIndex →
      ∃ e, nextConfiguration current currentIndex change = .error e) ∧
    (∀ c', nextConfiguration current currentIndex change = .ok c' →
      checkConfiguration c' = none ∧
      (∀ srv ∈ c'.servers, srv.id ≠ "" ∧ srv.address ≠ "") ∧
      (c'.servers.map Server.id).Nodup ∧
      (c'.servers.map Server.address).Nodup ∧
      (∃ srv ∈ c'.servers, srv.suffrage = .Peer)) := by
  constructor
  · intro hnz hne
    refine ⟨.configurationChanged, ?_⟩
    unfold nextConfiguration
    rw [if_pos ⟨Nat.pos_of_ne_zero hnz, hne⟩]
  · intro c' hok
    unfold nextConfiguration at hok
    by_cases hprev : change.prevIndex > 0 ∧ change.prevIndex ≠ currentIndex
    · rw [if_pos hprev] at hok
      exact absurd hok (by simp)
    · rw [if_neg hprev] at hok
      simp only [] at hok
      cases hchk : checkConfiguration { current with servers :=
          match change.command with
          | .AddStaging =>
            match addStagingLoop
                { suffrage := .Peer, id := change.serverID, address := change.serverAddress
                  pubKey := none } change.serverID change.serverAddress current.servers with
            | some l => l
            | none => current.servers ++
                [{ suffrage := .Peer, id := change.serverID, address := change.serverAddress
                   pubKey := none }]
          | .AddLearner =>
            match addLearnerLoop
                { suffrage := .Learner, id := change.serverID, address := change.serverAddress
                  pubKey := none } change.serverID change.serverAddress current.servers with
            | some l => l
            | none => current.servers ++
                [{ suffrage := .Learner, id := change.serverID, address := change.serverAddress
                   pubKey := none }]
          | .Demote => demoteLoop change.serverID current.servers
          | .RemoveServer => removeLoop change.serverID current.servers
          | .Promote => promoteLoop change.serverID current.servers } with
      | some e => rw [hchk] at hok; exact absurd hok (by simp)
      | none =>
        simp only [hchk] at hok
        injection hok with hok
        subst hok
        obtain ⟨hall, hnd1, hnd2, hpeer⟩ := checkServersLoop_ok _ [] [] 0 hchk
        exact ⟨hchk, fun srv hs => ⟨(hall srv hs).1, (hall srv hs).2.1⟩, hnd1, hnd2,
          hpeer rfl⟩

/-- Witness for C9: removing `p2` from a two-peer configuration yields a valid
one-voter configuration, and a stale `prevIndex = 5` against index 3 fails. -/
theorem nextConfiguration_guards_witness :
    (∃ e, nextConfiguration confC9 3 chgC9stale = .error e) ∧
    (∃ srv ∈ (Configuration.mk 1
        { suffrage := .Peer, id := "p1", address := "a1", pubKey := none }
        [{ suffrage := .Peer, id := "p1", address := "a1", pubKey := none }] none).servers,
      srv.suffrage = .Peer) := by
  constructor
  · exact (nextConfiguration_guards confC9 3 chgC9stale).1 (by decide) (by decide)
  · have h := (nextConfiguration_guards confC9 3 chgC9).2
      (Configuration.mk 1
        { suffrage := .Peer, id := "p1", address := "a1", pubKey := none }
        [{ suffrage := .Peer, id := "p1", address := "a1", pubKey := none }] none)
      (by rfl)
    exact h.2.2.2.2

end Raft

/-- **C10** (evaluation of the code at the failing input): deleting the user
at the *first* position of a two-user list panics — the swap-remove nils the
old last slot, the range loop (whose length and backing array were captured at
entry) still reaches that slot, and dereferences the nil entry — while
deleting the user at the *last* position terminates normally. The claim (and
the spec's "no panics on user input") says both must terminate normally. -/
theorem deleteSQLChainUser_panics_on_non_last_match :
    deleteSQLChainUser stC10 9 1 = none ∧
    (deleteSQLChainUser stC10 9 2).isSome = true := by
  decide

theorem nonceView_setDirtyAccount (s : MetaState) (k : Addr) (acc : Account) (a : Addr) :
    nonceView (setDirtyAccount s k acc) a
      = if a = k then some acc.nextNonce else nonceView s a := by
  by_cases h : a = k
  · subst h; simp [nonceView, loadAccountObject_setDirtyAccount_self]
  · simp [nonceView, h, loadAccountObject_setDirtyAccount_ne _ _ _ _ h]

theorem noncePreserved_refl (s : MetaState) : NoncePreserved s s := fun _ _ h => h

theorem noncePreserved_trans {s1 s2 s3 : MetaState}
    (h12 : NoncePreserved s1 s2) (h23 : NoncePreserved s2 s3) : NoncePreserved s1 s3 :=
  fun a n h => h23 a n (h12 a n h)

theorem noncePres_setDirty_of_load {s : MetaState} {k : Addr} {acc acc' : Account}
    (h : loadAccountObject s k = some acc) (hn : acc'.nextNonce = acc.nextNonce) :
    NoncePreserved s (setDirtyAccount s k acc') := by
  intro a n hv
  rw [nonceView_setDirtyAccount]
  by_cases ha : a = k
  · subst ha
    unfold nonceView at hv
    rw [h] at hv
    simp at hv
    rw [if_pos rfl, hn, hv]
  · rw [if_neg ha]; exact hv

theorem noncePres_congr_accounts {s s' : MetaState}
    (hd : s'.dirty.accounts = s.dirty.accounts)
    (hr : s'.readonly.accounts = s.readonly.accounts) : NoncePreserved s s' := by
  intro a n h
  unfold nonceView loadAccountObject at h ⊢
  rw [hd, hr]
  exact h

theorem nextNonce_of_load {s : MetaState} {a : Addr} {acct : Account}
    (h : loadAccountObject s a = some acct) : nextNonce s a = .ok acct.nextNonce := by
  unfold loadAccountObject at h
  unfold nextNonce
  cases hd : findA s.dirty.accounts a with
  | some o =>
    rw [hd] at h
    cases o with
    | some x =>
      simp at h
      rw [h]
    | none => simp at h
  | none =>
    rw [hd] at h
    simp at h
    rw [h]

theorem safeAdd_err {a b : Nat} {e : Err} (h : safeAdd a b = .error e) : e = .overflow := by
  unfold safeAdd at h
  by_cases hc : a + b < U64
  · simp [hc] at h
  · simp [hc] at h
    exact h.symm

theorem safeSub_err {a b : Nat} {e : Err} (h : safeSub a b = .error e) : e = .underflow := by
  unfold safeSub at h
  by_cases hc : b ≤ a
  · simp [hc] at h
  · simp [hc] at h
    exact h.symm

theorem increaseAccountToken_hok (s : MetaState) (k : Addr) (amt : Nat) (tt : TokenType) :
    HandlerOK (increaseAccountToken s k amt tt) s := by
  unfold HandlerOK increaseAccountToken
  cases hd : findA s.dirty.accounts k with
  | some o =>
    cases o with
    | some dst =>
      dsimp only
      cases hadd : safeAdd (dst.bal tt) amt with
      | ok n =>
        dsimp only
        refine ⟨by simp, ?_⟩
        exact noncePres_setDirty_of_load (by simp [loadAccountObject, hd])
          (Account.nextNonce_setBal _ _ _)
      | error e =>
        dsimp only
        exact ⟨by simp [safeAdd_err hadd], noncePreserved_refl s⟩
    | none => exact ⟨by simp, noncePreserved_refl s⟩
  | none =>
    dsimp only
    cases hr : findA s.readonly.accounts k with
    | none => exact ⟨by simp, noncePreserved_refl s⟩
    | some src =>
      dsimp only
      cases hadd : safeAdd (src.bal tt) amt with
      | ok n =>
        dsimp only
        refine ⟨by simp, ?_⟩
        exact noncePres_setDirty_of_load (by simp [loadAccountObject, hd, hr])
          (Account.nextNonce_setBal _ _ _)
      | error e =>
        dsimp only
        refine ⟨by simp [safeAdd_err hadd], ?_⟩
        exact noncePres_setDirty_of_load (by simp [loadAccountObject, hd, hr]) rfl

theorem decreaseAccountToken_hok (s : MetaState) (k : Addr) (amt : Nat) (tt : TokenType) :
    HandlerOK (decreaseAccountToken s k amt tt) s := by
  unfold HandlerOK decreaseAccountToken
  cases hd : findA s.dirty.accounts k with
  | some o =>
    cases o with
    | some dst =>
      dsimp only
      cases hsub : safeSub (dst.bal tt) amt with
      | ok n =>
        dsimp only
        refine ⟨by simp, ?_⟩
        exact noncePres_setDirty_of_load (by simp [loadAccountObject, hd])
          (Account.nextNonce_setBal _ _ _)
      | error e =>
        dsimp only
        exact ⟨by simp [safeSub_err hsub], noncePreserved_refl s⟩
    | none => exact ⟨by simp, noncePreserved_refl s⟩
  | none =>
    dsimp only
    cases hr : findA s.readonly.accounts k with
    | none => exact ⟨by simp, noncePreserved_refl s⟩
    | some src =>
      dsimp only
      cases hsub : safeSub (src.bal tt) amt with
      | ok n =>
        dsimp only
        refine ⟨by simp, ?_⟩
        exact noncePres_setDirty_of_load (by simp [loadAccountObject, hd, hr])
          (Account.nextNonce_setBal _ _ _)
      | error e =>
        dsimp only
        refine ⟨by simp [safeSub_err hsub], ?_⟩
        exact noncePres_setDirty_of_load (by simp [loadAccountObject, hd, hr]) rfl

theorem noncePres_insertA_dirty (s : MetaState) (k : Addr) (v : Option Account)
    (hk : nonceView s k = none) :
    NoncePreserved s { s with dirty := { s.dirty with
      accounts := insertA s.dirty.accounts k v } } := by
  intro a n h
  by_cases ha : a = k
  · subst ha
    rw [hk] at h
    exact absurd h (by simp)
  · unfold nonceView loadAccountObject at h ⊢
    simp only [findA_insertA_ne _ _ _ _ ha]
    exact h

theorem noncePres_loadOrStoreAccount (s : MetaState) (k : Addr) (v : Account) :
    NoncePreserved s (loadOrStoreAccountObject s k v).2.2 := by
  unfold loadOrStoreAccountObject
  cases hd : findA s.dirty.accounts k with
  | some o =>
    cases o with
    | some x => exact noncePreserved_refl s
    | none =>
      dsimp only
      cases hr : findA s.readonly.accounts k with
      | some x => exact noncePreserved_refl s
      | none =>
        dsimp only
        exact noncePres_insertA_dirty s k (some v)
          (by unfold nonceView loadAccountObject; rw [hd]; simp)
  | none =>
    dsimp only
    cases hr : findA s.readonly.accounts k with
    | some x => exact noncePreserved_refl s
    | none =>
      dsimp only
      exact noncePres_insertA_dirty s k (some v)
        (by unfold nonceView loadAccountObject; rw [hd, hr]; simp)

theorem storeBaseAccount_hok (s : MetaState) (k : Addr) (v : Account) :
    HandlerOK (storeBaseAccount s k v) s := by
  unfold HandlerOK storeBaseAccount
  cases hd : findA s.dirty.accounts k with
  | some o =>
    cases o with
    | some ao =>
      dsimp only
      by_cases hn : ao.nextNonce ≠ 0
      · rw [if_pos hn]
        exact ⟨by simp, noncePreserved_refl s⟩
      · rw [if_neg hn]
        cases h1 : safeAdd ao.wave v.wave with
        | error e =>
          dsimp only
          exact ⟨by simp [safeAdd_err h1], noncePreserved_refl s⟩
        | ok cb =>
          dsimp only
          cases h2 : safeAdd ao.particle v.particle with
          | error e =>
            dsimp only
            exact ⟨by simp [safeAdd_err h2], noncePreserved_refl s⟩
          | ok sb =>
            dsimp only
            refine ⟨by simp, ?_⟩
            exact @noncePres_setDirty_of_load s k ao _ (by simp [loadAccountObject, hd]) rfl
    | none =>
      dsimp only
      cases hr : findA s.readonly.accounts k with
      | some ao =>
        dsimp only
        by_cases hn : ao.nextNonce ≠ 0
        · rw [if_pos hn]
          exact ⟨by simp, noncePreserved_refl s⟩
        · rw [if_neg hn]
          cases h1 : safeAdd ao.wave v.wave with
          | error e =>
            dsimp only
            exact ⟨by simp [safeAdd_err h1], noncePreserved_refl s⟩
          | ok cb =>
            dsimp only
            cases h2 : safeAdd ao.particle v.particle with
            | error e =>
              dsimp only
              exact ⟨by simp [safeAdd_err h2], noncePreserved_refl s⟩
            | ok sb =>
              dsimp only
              refine ⟨by simp, ?_⟩
              -- readonly in-place merge; the key is shadowed by the dirty nil
              -- marker, so its observable nonce is `none` on both sides
              intro a n h
              by_cases ha : a = k
              · subst ha
                unfold nonceView loadAccountObject at h
                rw [hd] at h
                exact absurd h (by simp)
              · unfold nonceView loadAccountObject at h ⊢
                dsimp only
                rw [show ({ s with readonly := { s.readonly with
                    accounts := insertA s.readonly.accounts k
                      { ao with wave := cb, particle := sb } } } : MetaState).dirty.accounts
                  = s.dirty.accounts from rfl]
                cases hda : findA s.dirty.accounts a with
                | some o => rw [hda] at h; exact h
                | none =>
                  rw [hda] at h
                  rw [findA_insertA_ne _ _ _ _ ha]
                  exact h
      | none =>
        dsimp only
        exact ⟨by simp, noncePres_insertA_dirty s k (some v)
          (by unfold nonceView loadAccountObject; rw [hd]; simp)⟩
  | none =>
    dsimp only
    cases hr : findA s.readonly.accounts k with
    | some ao =>
      dsimp only
      by_cases hn : ao.nextNonce ≠ 0
      · rw [if_pos hn]
        exact ⟨by simp, noncePreserved_refl s⟩
      · rw [if_neg hn]
        cases h1 : safeAdd ao.wave v.wave with
        | error e =>
          dsimp only
          exact ⟨by simp [safeAdd_err h1], noncePreserved_refl s⟩
        | ok cb =>
          dsimp only
          cases h2 : safeAdd ao.particle v.particle with
          | error e =>
            dsimp only
            exact ⟨by simp [safeAdd_err h2], noncePreserved_refl s⟩
          | ok sb =>
            dsimp only
            refine ⟨by simp, ?_⟩
            -- readonly in-place merge, observable at k; the merge record
            -- update keeps the (zero) nonce
            intro a n h
            by_cases ha : a = k
            · subst ha
              unfold nonceView loadAccountObject at h ⊢
              dsimp only
              rw [hd] at h ⊢
              rw [hr] at h
              rw [findA_insertA_self]
              simp at h
              simp [h]
            · unfold nonceView loadAccountObject at h ⊢
              dsimp only
              cases hda : findA s.dirty.accounts a with
              | some o => rw [hda] at h; exact h
              | none =>
                rw [hda] at h
                rw [findA_insertA_ne _ _ _ _ ha]
                exact h
    | none =>
      dsimp only
      exact ⟨by simp, noncePres_insertA_dirty s k (some v)
        (by unfold nonceView loadAccountObject; rw [hd, hr]; simp)⟩

theorem pubKeyHash_err {x : Option PublicKey} {e : Err} (h : pubKeyHash x = .error e) :
    e = .goPanic := by
  cases x with
  | some pk => simp [pubKeyHash] at h
  | none =>
    simp [pubKeyHash] at h
    exact h.symm

theorem transferAccountToken_hok (s : MetaState) (t : Transfer) :
    HandlerOK (transferAccountToken s t) s := by
  unfold HandlerOK transferAccountToken
  cases hpk : pubKeyHash t.signee with
  | error e =>
    dsimp only
    exact ⟨by simp [pubKeyHash_err hpk], noncePreserved_refl s⟩
  | ok realSender =>
    dsimp only
    by_cases hearly : t.sender = t.receiver ∨ t.amount = 0
    · rw [if_pos hearly]
      refine ⟨?_, noncePreserved_refl s⟩
      by_cases hmm : realSender ≠ t.sender <;> simp [hmm]
    · rw [if_neg hearly]
      have hsr : t.sender ≠ t.receiver := fun h => hearly (Or.inl h)
      have hp1 := noncePres_loadOrStoreAccount s t.receiver ⟨t.receiver, 0, 0, 0⟩
      cases hsl : rawLoadAccount
          (loadOrStoreAccountObject s t.receiver ⟨t.receiver, 0, 0, 0⟩).2.2 t.sender with
      | none => exact ⟨by simp, hp1⟩
      | some p =>
        obtain ⟨so?, sd⟩ := p
        dsimp only
        cases hrl : rawLoadAccount
            (loadOrStoreAccountObject s t.receiver ⟨t.receiver, 0, 0, 0⟩).2.2 t.receiver with
        | none => exact ⟨by simp, hp1⟩
        | some q =>
          obtain ⟨ro?, rd⟩ := q
          dsimp only
          cases so? with
          | none => cases ro? <;> exact ⟨by simp, hp1⟩
          | some so =>
            cases ro? with
            | none => exact ⟨by simp, hp1⟩
            | some ro =>
              dsimp only
              cases hsub : safeSub (so.bal t.tokenType) t.amount with
              | error e =>
                dsimp only
                exact ⟨by simp [safeSub_err hsub], hp1⟩
              | ok sb =>
                dsimp only
                cases hadd : safeAdd (ro.bal t.tokenType) t.amount with
                | error e =>
                  dsimp only
                  exact ⟨by simp [safeAdd_err hadd], hp1⟩
                | ok rb =>
                  dsimp only
                  refine ⟨by simp, ?_⟩
                  have h2 := @noncePres_setDirty_of_load
                    (loadOrStoreAccountObject s t.receiver ⟨t.receiver, 0, 0, 0⟩).2.2
                    t.sender so (so.setBal t.tokenType sb)
                    (loadAccountObject_of_rawLoad hsl) (Account.nextNonce_setBal _ _ _)
                  have hload3 : loadAccountObject
                      (setDirtyAccount
                        (loadOrStoreAccountObject s t.receiver ⟨t.receiver, 0, 0, 0⟩).2.2
                        t.sender (so.setBal t.tokenType sb)) t.receiver = some ro := by
                    rw [loadAccountObject_setDirtyAccount_ne _ _ _ _ (Ne.symm hsr)]
                    exact loadAccountObject_of_rawLoad hrl
                  have h3 := @noncePres_setDirty_of_load _ t.receiver ro
                    (ro.setBal t.tokenType rb) hload3 (Account.nextNonce_setBal _ _ _)
                  exact noncePreserved_trans hp1 (noncePreserved_trans h2 h3)

theorem sqlchainUserLoop_failAdd {t : Transfer} {ctt : TokenType} {md : Nat} :
    ∀ {us : List SQLChainUser} {e : Err},
      sqlchainUserLoop t ctt md us = .failAdd e → e = .overflow := by
  intro us
  induction us with
  | nil => intro e h; simp [sqlchainUserLoop] at h
  | cons u rest ih =>
    intro e h
    unfold sqlchainUserLoop at h
    by_cases h1 : u.address = t.sender
    · rw [if_pos h1] at h
      by_cases h2 : ctt ≠ t.tokenType
      · rw [if_pos h2] at h
        simp at h
      · rw [if_neg h2] at h
        by_cases h3 : u.deposit < md
        · rw [if_pos h3] at h
          simp at h
        · rw [if_neg h3] at h
          cases hadd : safeAdd u.advancePayment t.amount with
          | error e' =>
            rw [hadd] at h
            dsimp only at h
            injection h with h
            exact h ▸ safeAdd_err hadd
          | ok n =>
            rw [hadd] at h
            simp at h
    · rw [if_neg h1] at h
      cases hrec : sqlchainUserLoop t ctt md rest with
      | noUser => rw [hrec] at h; simp at h
      | failTok => rw [hrec] at h; simp at h
      | failAdd e' =>
        rw [hrec] at h
        dsimp only at h
        injection h with h
        exact h ▸ ih hrec
      | depositBranch us' => rw [hrec] at h; simp at h
      | advanceBranch us' => rw [hrec] at h; simp at h

theorem loadOrStoreProviderObject_effects (s : MetaState) (k : Addr) (v : ProviderProfile) :
    (loadOrStoreProviderObject s k v).2.2.dirty.accounts = s.dirty.accounts ∧
    (loadOrStoreProviderObject s k v).2.2.dirty.databases = s.dirty.databases ∧
    (loadOrStoreProviderObject s k v).2.2.readonly = s.readonly := by
  unfold loadOrStoreProviderObject
  cases hd : findA s.dirty.provider k with
  | some o =>
    cases o with
    | some a => simp
    | none => cases hr : findA s.readonly.provider k <;> simp [hr]
  | none => cases hr : findA s.readonly.provider k <;> simp [hr]

theorem transferSQLChainTokenBalance_hok (env : Env) (s : MetaState) (t : Transfer) :
    HandlerOK (transferSQLChainTokenBalance env s t) s := by
  unfold HandlerOK transferSQLChainTokenBalance
  cases hpk : pubKeyHash t.signee with
  | error e =>
    dsimp only
    exact ⟨by simp [pubKeyHash_err hpk], noncePreserved_refl s⟩
  | ok realSender =>
    dsimp only
    cases hload : loadSQLChainObject s (Addr.databaseID t.sender) with
    | none => exact ⟨by simp, noncePreserved_refl s⟩
    | some chain =>
      dsimp only
      have hsql : ∀ v, NoncePreserved s
          (loadOrStoreSQLChainObject s (Addr.databaseID t.sender) v).2.2 := by
        intro v
        have he := loadOrStoreSQLChainObject_effects s (Addr.databaseID t.sender) v
        exact noncePres_congr_accounts he.1 (by rw [he.2.2])
      cases hloop : sqlchainUserLoop t chain.tokenType
          (minDeposit env chain.gasPrice chain.miners.length) chain.users with
      | noUser =>
        dsimp only
        refine ⟨?_, noncePreserved_refl s⟩
        by_cases hmm : realSender ≠ t.sender <;> simp [hmm]
      | failTok =>
        dsimp only
        exact ⟨by simp, noncePreserved_refl s⟩
      | failAdd e =>
        dsimp only
        exact ⟨by simp [sqlchainUserLoop_failAdd hloop], noncePreserved_refl s⟩
      | depositBranch us =>
        dsimp only
        refine ⟨?_, hsql _⟩
        by_cases hmm : realSender ≠ t.sender <;> simp [hmm]
      | advanceBranch us =>
        dsimp only
        exact ⟨by simp, hsql _⟩

theorem applyBillingLoop_hok (fees rewards : List Nat) :
    ∀ (rs : List Addr) (i : Nat) (s : MetaState),
      HandlerOK (applyBillingLoop fees rewards i rs s) s := by
  intro rs
  induction rs with
  | nil =>
    intro i s
    exact ⟨by simp [applyBillingLoop], noncePreserved_refl s⟩
  | cons r rest ih =>
    intro i s
    unfold HandlerOK applyBillingLoop
    have hp1 := noncePres_loadOrStoreAccount s r ⟨r, 0, 0, 0⟩
    cases hf : fees[i]? with
    | none => exact ⟨by simp, hp1⟩
    | some fee =>
      dsimp only
      have hok1 := increaseAccountToken_hok
        (loadOrStoreAccountObject s r ⟨r, 0, 0, 0⟩).2.2 r fee .wave
      cases hinc : increaseAccountCovenantBalance
          (loadOrStoreAccountObject s r ⟨r, 0, 0, 0⟩).2.2 r fee with
      | mk e1 s2 =>
        rw [show increaseAccountCovenantBalance
            (loadOrStoreAccountObject s r ⟨r, 0, 0, 0⟩).2.2 r fee
          = increaseAccountToken
            (loadOrStoreAccountObject s r ⟨r, 0, 0, 0⟩).2.2 r fee .wave from rfl] at hinc
        rw [hinc] at hok1
        cases e1 with
        | some e =>
          dsimp only
          exact ⟨hok1.1, noncePreserved_trans hp1 hok1.2⟩
        | none =>
          dsimp only
          cases hrw : rewards[i]? with
          | none => exact ⟨by simp, noncePreserved_trans hp1 hok1.2⟩
          | some rw' =>
            dsimp only
            have hok2 := increaseAccountToken_hok s2 r rw' .particle
            cases hinc2 : increaseAccountStableBalance s2 r rw' with
            | mk e2 s3 =>
              rw [show increaseAccountStableBalance s2 r rw'
                = increaseAccountToken s2 r rw' .particle from rfl] at hinc2
              rw [hinc2] at hok2
              cases e2 with
              | some e =>
                dsimp only
                exact ⟨hok2.1,
                  noncePreserved_trans hp1 (noncePreserved_trans hok1.2 hok2.2)⟩
              | none =>
                dsimp only
                have hrec := ih (i + 1) s3
                exact ⟨hrec.1, noncePreserved_trans hp1
                  (noncePreserved_trans hok1.2 (noncePreserved_trans hok2.2 hrec.2))⟩

theorem applyBilling_hok (s : MetaState) (t : BillingTx) :
    HandlerOK (applyBilling s t) s :=
  applyBillingLoop_hok t.fees t.rewards t.receivers 0 s

theorem updateProviderList_hok (env : Env) (s : MetaState) (t : ProvideServiceTx) :
    HandlerOK (updateProviderList env s t) s := by
  unfold HandlerOK updateProviderList
  cases hpk : pubKeyHash t.signee with
  | error e =>
    dsimp only
    exact ⟨by simp [pubKeyHash_err hpk], noncePreserved_refl s⟩
  | ok sender =>
    dsimp only
    have hokd := decreaseAccountToken_hok s sender env.minProviderDeposit .particle
    cases hdec : decreaseAccountStableBalance s sender env.minProviderDeposit with
    | mk e1 s1 =>
      rw [show decreaseAccountStableBalance s sender env.minProviderDeposit
        = decreaseAccountToken s sender env.minProviderDeposit .particle from rfl] at hdec
      rw [hdec] at hokd
      cases e1 with
      | some e =>
        dsimp only
        exact ⟨hokd.1, hokd.2⟩
      | none =>
        dsimp only
        have he := loadOrStoreProviderObject_effects s1 sender
          { provider := sender, space := t.space, memory := t.memory
            loadAvgPerCPU := t.loadAvgPerCPU, targetUser := t.targetUser
            deposit := env.minProviderDeposit, gasPrice := t.gasPrice, nodeID := t.nodeID }
        exact ⟨by simp, noncePreserved_trans hokd.2
          (noncePres_congr_accounts he.1 (by rw [he.2.2]))⟩

theorem resolveMiners_err {s : MetaState} {sender : Addr} {gp : Nat} :
    ∀ {L : List Addr} {e : Err}, resolveMiners s sender gp L = .error e →
      e = .noSuchMiner ∨ e = .minerUserNotMatch ∨ e = .gasPriceMismatch := by
  intro L
  induction L with
  | nil => intro e h; simp [resolveMiners] at h
  | cons m rest ih =>
    intro e h
    unfold resolveMiners at h
    cases hpo : loadProviderObject s m with
    | none =>
      rw [hpo] at h
      dsimp only at h
      injection h with h
      exact Or.inl h.symm
    | some po =>
      rw [hpo] at h
      dsimp only at h
      by_cases h1 : po.targetUser ≠ sender
      · rw [if_pos h1] at h
        injection h with h
        exact Or.inr (Or.inl h.symm)
      · rw [if_neg h1] at h
        by_cases h2 : gp < po.gasPrice
        · rw [if_pos h2] at h
          injection h with h
          exact Or.inr (Or.inr h.symm)
        · rw [if_neg h2] at h
          cases hrec : resolveMiners s sender gp rest with
          | error e' =>
            rw [hrec] at h
            dsimp only at h
            injection h with h
            exact h ▸ ih hrec
          | ok ms =>
            rw [hrec] at h
            simp at h

theorem matchProvidersWithUser_hok (env : Env) (s : MetaState) (tx : CreateDatabase) :
    HandlerOK (matchProvidersWithUser env s tx) s := by
  unfold HandlerOK matchProvidersWithUser
  cases hpk : pubKeyHash tx.signee with
  | error e =>
    dsimp only
    exact ⟨by simp [pubKeyHash_err hpk], noncePreserved_refl s⟩
  | ok sender =>
    dsimp only
    by_cases h1 : sender ≠ tx.owner
    · rw [if_pos h1]
      exact ⟨by simp, noncePreserved_refl s⟩
    · rw [if_neg h1]
      by_cases h2 : tx.gasPrice = 0
      · rw [if_pos h2]
        exact ⟨by simp, noncePreserved_refl s⟩
      · rw [if_neg h2]
        by_cases h3 : tx.advancePayment < minDeposit env tx.gasPrice tx.targetMiners.length
        · rw [if_pos h3]
          exact ⟨by simp, noncePreserved_refl s⟩
        · rw [if_neg h3]
          cases hres : resolveMiners s sender tx.gasPrice tx.targetMiners with
          | error e =>
            dsimp only
            refine ⟨?_, noncePreserved_refl s⟩
            rcases resolveMiners_err hres with h | h | h <;> simp [h]
          | ok miners =>
            dsimp only
            simp only [DatabaseID.accountAddress]
            cases hall : safeAdd (minDeposit env tx.gasPrice tx.targetMiners.length)
                tx.advancePayment with
            | error e =>
              dsimp only
              exact ⟨by simp [safeAdd_err hall], noncePreserved_refl s⟩
            | ok all =>
              dsimp only
              have hokd := decreaseAccountToken_hok s sender all tx.tokenType
              cases hdec : decreaseAccountToken s sender all tx.tokenType with
              | mk e1 s1 =>
                rw [hdec] at hokd
                cases e1 with
                | some e =>
                  dsimp only
                  exact ⟨hokd.1, hokd.2⟩
                | none =>
                  dsimp only
                  cases hgen : env.encodedGenesis with
                  | none =>
                    dsimp only
                    exact ⟨by simp, hokd.2⟩
                  | some enc =>
                    dsimp only
                    cases hload : loadSQLChainObject s1
                        (fromAccountAndNonce tx.owner tx.nonce) with
                    | some o =>
                      dsimp only
                      exact ⟨by simp, hokd.2⟩
                    | none =>
                      dsimp only
                      refine ⟨by simp, ?_⟩
                      have hp2 := noncePres_loadOrStoreAccount s1
                        (fromAccountAndNonce tx.owner tx.nonce)
                        ⟨fromAccountAndNonce tx.owner tx.nonce, 0, 0, 0⟩
                      have he3 := loadOrStoreSQLChainObject_effects
                        (loadOrStoreAccountObject s1 (fromAccountAndNonce tx.owner tx.nonce)
                          ⟨fromAccountAndNonce tx.owner tx.nonce, 0, 0, 0⟩).2.2
                        (fromAccountAndNonce tx.owner tx.nonce)
                        { id := fromAccountAndNonce tx.owner tx.nonce
                          address := fromAccountAndNonce tx.owner tx.nonce
                          period := sqlchainPeriod
                          gasPrice := tx.gasPrice, tokenType := .particle, owner := sender
                          users := [{ address := sender, permission := permAdmin
                                      status := statusNormal
                                      deposit := minDeposit env tx.gasPrice
                                        tx.targetMiners.length
                                      advancePayment := tx.advancePayment }]
                          miners := miners, encodedGenesis := enc }
                      have hp3 := noncePres_congr_accounts he3.1 (by rw [he3.2.2])
                      have he4 := foldl_deleteProvider_effects tx.targetMiners
                        (loadOrStoreSQLChainObject
                          (loadOrStoreAccountObject s1
                            (fromAccountAndNonce tx.owner tx.nonce)
                            ⟨fromAccountAndNonce tx.owner tx.nonce, 0, 0, 0⟩).2.2
                          (fromAccountAndNonce tx.owner tx.nonce)
                          { id := fromAccountAndNonce tx.owner tx.nonce
                            address := fromAccountAndNonce tx.owner tx.nonce
                            period := sqlchainPeriod
                            gasPrice := tx.gasPrice, tokenType := .particle, owner := sender
                            users := [{ address := sender, permission := permAdmin
                                        status := statusNormal
                                        deposit := minDeposit env tx.gasPrice
                                          tx.targetMiners.length
                                        advancePayment := tx.advancePayment }]
                            miners := miners, encodedGenesis := enc }).2.2
                      have hp4 := noncePres_congr_accounts he4.1 (by rw [he4.2.2])
                      exact noncePreserved_trans hokd.2
                        (noncePreserved_trans hp2 (noncePreserved_trans hp3 hp4))

theorem updatePermission_hok (s : MetaState) (t : UpdatePermissionTx) :
    HandlerOK (updatePermission s t) s := by
  unfold HandlerOK updatePermission
  cases hpk : pubKeyHash t.signee with
  | error e =>
    dsimp only
    exact ⟨by simp [pubKeyHash_err hpk], noncePreserved_refl s⟩
  | ok sender =>
    dsimp only
    by_cases h1 : sender = t.targetUser
    · rw [if_pos h1]
      exact ⟨by simp, noncePreserved_refl s⟩
    · rw [if_neg h1]
      cases hload : loadSQLChainObject s (Addr.databaseID t.targetSQLChain) with
      | none => exact ⟨by simp, noncePreserved_refl s⟩
      | some so =>
        dsimp only
        by_cases h2 : numberOfUserPermission ≤ t.permission
        · rw [if_pos h2]
          exact ⟨by simp, noncePreserved_refl s⟩
        · rw [if_neg h2]
          by_cases h3 : (so.users.any fun u =>
              sender = u.address ∧ u.permission = permAdmin) = true
          · rw [h3]
            exact ⟨by simp, noncePres_congr_accounts rfl rfl⟩
          · rw [Bool.eq_false_iff.mpr (fun hc => h3 hc)]
            exact ⟨by simp, noncePreserved_refl s⟩

theorem updateKeys_hok (s : MetaState) (t : IssueKeysTx) :
    HandlerOK (updateKeys s t) s := by
  unfold HandlerOK updateKeys
  cases hload : loadSQLChainObject s (Addr.databaseID t.targetSQLChain) with
  | none => exact ⟨by simp, noncePreserved_refl s⟩
  | some so =>
    dsimp only
    by_cases h3 : (so.users.any fun u =>
        t.accountAddress = u.address ∧ u.permission = permAdmin) = true
    · rw [h3]
      exact ⟨by simp, noncePreserved_refl s⟩
    · rw [Bool.eq_false_iff.mpr (fun hc => h3 hc)]
      exact ⟨by simp, noncePreserved_refl s⟩

theorem updateBilling_hok (env : Env) (s : MetaState) (t : UpdateBillingTx) :
    HandlerOK (updateBilling env s t) s := by
  unfold HandlerOK updateBilling
  cases hload : loadSQLChainObject s (Addr.databaseID t.receiver) with
  | none => exact ⟨by simp, noncePreserved_refl s⟩
  | some p =>
    dsimp only
    by_cases h1 : p.gasPrice = 0
    · rw [if_pos h1]
      exact ⟨by simp, noncePreserved_refl s⟩
    · rw [if_neg h1]
      by_cases h2 : (p.miners.any fun m => m.address = t.accountAddress) = true
      · rw [h2]
        exact ⟨by simp, noncePres_congr_accounts rfl rfl⟩
      · rw [Bool.eq_false_iff.mpr (fun hc => h2 hc)]
        exact ⟨by simp, noncePreserved_refl s⟩

theorem applyTransaction_hok (env : Env) :
    ∀ (t : Tx) (s : MetaState), HandlerOK (applyTransaction env t s) s := by
  intro t
  induction t with
  | transfer t =>
    intro s
    have h1 := transferSQLChainTokenBalance_hok env s t
    unfold applyTransaction
    cases hres : transferSQLChainTokenBalance env s t with
    | mk e1 s1 =>
      rw [hres] at h1
      cases e1 with
      | none => exact h1
      | some err =>
        cases err <;> dsimp only <;>
          first
          | exact h1
          | exact ⟨(transferAccountToken_hok s1 t).1,
              noncePreserved_trans h1.2 (transferAccountToken_hok s1 t).2⟩
  | billing t => intro s; exact applyBilling_hok s t
  | baseAccount t => intro s; exact storeBaseAccount_hok s t.address t.account
  | provideService t => intro s; exact updateProviderList_hok env s t
  | createDatabase t => intro s; exact matchProvidersWithUser_hok env s t
  | updatePermission t => intro s; exact updatePermission_hok s t
  | issueKeys t => intro s; exact updateKeys_hok s t
  | updateBilling t => intro s; exact updateBilling_hok env s t
  | wrapper t ih => intro s; exact ih s
  | unknown a n => intro s; exact ⟨by simp [applyTransaction], noncePreserved_refl s⟩

theorem increaseNonce_not_ian (s : MetaState) (a : Addr) :
    (increaseNonce s a).1 ≠ some Err.invalidAccountNonce := by
  unfold increaseNonce
  cases hd : findA s.dirty.accounts a with
  | some o => cases o <;> simp
  | none =>
    dsimp only
    cases hr : findA s.readonly.accounts a <;> simp

theorem increaseNonce_of_view {s : MetaState} {a : Addr} {n : Nat}
    (h : nonceView s a = some n) :
    (increaseNonce s a).1 = none ∧ nonceView (increaseNonce s a).2 a = some (n + 1) := by
  unfold nonceView loadAccountObject at h
  unfold increaseNonce
  cases hd : findA s.dirty.accounts a with
  | some o =>
    rw [hd] at h
    cases o with
    | some dst =>
      simp at h
      dsimp only
      refine ⟨rfl, ?_⟩
      rw [nonceView_setDirtyAccount, if_pos rfl]
      simp [h]
    | none => simp at h
  | none =>
    rw [hd] at h
    dsimp only
    cases hr : findA s.readonly.accounts a with
    | none => rw [hr] at h; simp at h
    | some src =>
      rw [hr] at h
      simp at h
      dsimp only
      refine ⟨rfl, ?_⟩
      rw [nonceView_setDirtyAccount, if_pos rfl]
      simp [h]

/-- **C2.** The nonce gate of `apply`. For a sender whose account is
observable with next nonce `e`: `apply` fails with `InvalidAccountNonce`
exactly when the transaction's nonce differs from `e`; on success the
sender's next nonce becomes `e + 1`; on any failure it is still `e`. For a
sender absent from both layers: a non-BaseAccount transaction fails with
`AccountNotFound`, while a BaseAccount transaction is gated against an
expected nonce of 0. -/
theorem apply_nonce_discipline (env : Env) (s : MetaState) (t : Tx) :
    (∀ acct, loadAccountObject s t.getAccountAddress = some acct →
      (((apply env s t).1 = some Err.invalidAccountNonce) ↔
        t.getAccountNonce ≠ acct.nextNonce) ∧
      ((apply env s t).1 = none →
        nonceView (apply env s t).2 t.getAccountAddress = some (acct.nextNonce + 1)) ∧
      (∀ e, (apply env s t).1 = some e →
        nonceView (apply env s t).2 t.getAccountAddress = some acct.nextNonce)) ∧
    (findA s.dirty.accounts t.getAccountAddress = none →
     findA s.readonly.accounts t.getAccountAddress = none →
      (t.isBaseAccountType = false → (apply env s t).1 = some Err.accountNotFound) ∧
      (t.isBaseAccountType = true →
        (((apply env s t).1 = some Err.invalidAccountNonce) ↔ t.getAccountNonce ≠ 0))) := by
  have hat := applyTransaction_hok env t s
  constructor
  · intro acct hacct
    have hview : nonceView s t.getAccountAddress = some acct.nextNonce := by
      simp [nonceView, hacct]
    have hnn : nextNonce s t.getAccountAddress = .ok acct.nextNonce := nextNonce_of_load hacct
    unfold apply
    rw [hnn]
    dsimp only
    by_cases hne : acct.nextNonce ≠ t.getAccountNonce
    · rw [if_pos hne]
      refine ⟨iff_of_true rfl (Ne.symm hne), ?_, ?_⟩
      · intro hnone; exact absurd hnone (by simp)
      · intro e _; exact hview
    · rw [if_neg hne]
      push_neg at hne
      unfold applyThen
      cases hrun : applyTransaction env t s with
      | mk e1 s1 =>
        rw [hrun] at hat
        have hview1 : nonceView s1 t.getAccountAddress = some acct.nextNonce :=
          hat.2 _ _ hview
        cases e1 with
        | some e =>
          dsimp only
          refine ⟨iff_of_false (fun hc => hat.1 hc) (fun hc => hc hne.symm), ?_, ?_⟩
          · intro hnone; exact absurd hnone (by simp)
          · intro e' _; exact hview1
        | none =>
          dsimp only
          obtain ⟨hinc1, hinc2⟩ := increaseNonce_of_view hview1
          refine ⟨iff_of_false (fun hc => ?_) (fun hc => hc hne.symm), ?_, ?_⟩
          · rw [hinc1] at hc; exact absurd hc (by simp)
          · intro _; exact hinc2
          · intro e' he'
            rw [hinc1] at he'
            exact absurd he' (by simp)
  · intro hda hra
    have hnn : nextNonce s t.getAccountAddress = .error .accountNotFound := by
      unfold nextNonce
      rw [hda, hra]
    unfold apply
    rw [hnn]
    dsimp only
    constructor
    · intro hbase
      rw [hbase]
      simp
    · intro hbase
      rw [hbase]
      by_cases hz : (0 : Nat) ≠ t.getAccountNonce
      · rw [if_pos hz]
        exact iff_of_true rfl (Ne.symm hz)
      · rw [if_neg hz]
        push_neg at hz
        unfold applyThen
        cases hrun : applyTransaction env t s with
        | mk e1 s1 =>
          rw [hrun] at hat
          cases e1 with
          | some e =>
            dsimp only
            exact iff_of_false (fun hc => hat.1 hc) (fun hc => hc hz.symm)
          | none =>
            dsimp only
            exact iff_of_false (fun hc => increaseNonce_not_ian s1 t.getAccountAddress hc)
              (fun hc => hc hz.symm)

/-- Witness for C2: with account 2 at next nonce 0 holding 10 particle, a
transfer from it with nonce 5 is rejected with `InvalidAccountNonce` and
leaves the nonce at 0; the same transfer with nonce 0 is accepted and bumps
the nonce to 1; and a transfer from the absent account 77 fails with
`AccountNotFound`. -/
theorem apply_nonce_discipline_witness :
    (apply envC7 stC3 (Tx.transfer txC2bad)).1 = some Err.invalidAccountNonce ∧
    nonceView (apply envC7 stC3 (Tx.transfer txC2bad)).2 2 = some 0 ∧
    (apply envC7 stC3 (Tx.transfer txC2good)).1 = none ∧
    nonceView (apply envC7 stC3 (Tx.transfer txC2good)).2 2 = some 1 ∧
    (apply envC7 stC3 (Tx.transfer txC2absent)).1 = some Err.accountNotFound := by
  have h1 := (apply_nonce_discipline envC7 stC3 (Tx.transfer txC2bad)).1
    ⟨2, 0, 10, 0⟩ (by decide)
  have h2 := (apply_nonce_discipline envC7 stC3 (Tx.transfer txC2good)).1
    ⟨2, 0, 10, 0⟩ (by decide)
  have h3 := (apply_nonce_discipline envC7 stC3 (Tx.transfer txC2absent)).2
    (by decide) (by decide)
  have hia := h1.1.mpr (by decide)
  have hok : (apply envC7 stC3 (Tx.transfer txC2good)).1 = none := by decide
  exact ⟨hia, h1.2.2 _ hia, hok, h2.2.1 hok, h3.1 (by decide)⟩

end CovenantSQL
